import Mathlib

/-!
# OVRLipSync `ProcessWAV` sample: the PCM reader of `Waveform.h`

A shallow embedding of `Waveform.h` (the `Waveform` buffer with its two lazy
accessors and its moves, and `loadWAV`) and of the frame loop of `main` in
`ProcessWAV.cpp`, together with the properties of the decoder, of the buffer
and of the loop.

Conventions of the embedding.

* A file is the list of its bytes; a byte is a `Fin 256`.
* `unsigned`, `uint16_t`, `uint32_t` values are naturals; every value read from
  bytes is below `2 ^ 16` resp. `2 ^ 32` by construction.  Multi-byte fields are
  read little-endian, as on the hosts the sample is built for.
* `int16_t` samples are integers in `[-32768, 32767]`.
* `float` is IEEE-754 binary32 with round-to-nearest-even, evaluated in single
  precision.  A finite binary32 value is held exactly, as an integer number of
  units of `2 ^ (-149)` (the smallest subnormal); infinities and NaN do not occur
  for the values the buffer handles and are not represented.
* An access outside the object it is made on (the `wavHeader` on the stack, the
  `int16_t` storage on the heap) has no defined behaviour in C++; the embedding
  reports it as the outcome `Outcome.undefined` instead of guessing a result.
  What a build does that performs such an access on the header object is given
  by `loadWAVPast`, as a function of the bytes it finds behind the object.
* Freshly allocated arrays (`new float[n]`, `new int16_t[n]`) hold indeterminate
  values; the accessors take that content as the parameter `junk`.
* `double` is IEEE-754 binary64 with round-to-nearest-even; a non-negative
  finite value is held exactly, as a natural number of units of `2 ^ (-1074)`.
* The objects of a program are numbered; a move takes two different objects, so
  a move of an object into itself is not represented.
* The OVRLipSync engine is not part of the sources.  The loop takes it as the
  parameter `engine`, which tells for each call of `ovrLipSync_ProcessFrame`
  whether it succeeds; a loop that may not end is run for a given number of
  iterations and reports whether it is still running.
* `SpecValidWav` and `specFirstViolation` are written from the specification
  (its byte layout and its failure table), to be compared with `loadWAV`, which
  is written from the code.
-/

namespace LipSync

/-! ## Bytes and little-endian fields -/

/-- One octet of a file or of memory. -/
abbrev Byte := Fin 256

/-- The byte at offset `off` of `mem`, as a number (0 past the end; every use
below is guarded by a bounds test). -/
def byteAt (mem : List Byte) (off : Nat) : Nat := (mem.getD off 0).val

/-- A `uint16_t` read at offset `off`. -/
def u16At (mem : List Byte) (off : Nat) : Nat :=
  byteAt mem off + 256 * byteAt mem (off + 1)

/-- A `uint32_t` read at offset `off`. -/
def u32At (mem : List Byte) (off : Nat) : Nat :=
  byteAt mem off + 256 * byteAt mem (off + 1) + 65536 * byteAt mem (off + 2)
    + 16777216 * byteAt mem (off + 3)

/-- An `int16_t` read at offset `off` (two's complement). -/
def i16At (mem : List Byte) (off : Nat) : Int :=
  if u16At mem off < 32768 then (u16At mem off : Int) else (u16At mem off : Int) - 65536

/-- The characters `RIFF`. -/
def tagRIFF : List Byte := [0x52, 0x49, 0x46, 0x46]

/-- The characters `WAVE`. -/
def tagWAVE : List Byte := [0x57, 0x41, 0x56, 0x45]

/-- The characters `fmt` and a blank. -/
def tagFmt : List Byte := [0x66, 0x6d, 0x74, 0x20]

/-- The characters `data`. -/
def tagData : List Byte := [0x64, 0x61, 0x74, 0x61]

/-- The characters `RIFX`. -/
def tagRIFX : List Byte := [0x52, 0x49, 0x46, 0x58]

/-- The test `isChunkIDEqual(ID1, ID2)`: both pointers are read as one `uint32_t` and the
two numbers are compared.  A pointer is the memory from its target on. -/
def isChunkIDEqual (ID1 ID2 : List Byte) : Bool := u32At ID1 0 == u32At ID2 0

/-! ## binary32 arithmetic -/

/-- A finite binary32 value: `units * 2 ^ (-149)`. -/
structure F32 where
  units : Int
  deriving DecidableEq, Repr

/-- Number of units in 1.0. -/
def F32.one : Nat := 2 ^ 149

/-- The rational a binary32 value stands for. -/
def F32.toRat (x : F32) : ℚ := (x.units : ℚ) / (2 : ℚ) ^ 149

/-- The integer nearest to `n / d`, ties to the even one. -/
def roundHalfEven (n d : Nat) : Nat :=
  if 2 * (n % d) < d then n / d
  else if d < 2 * (n % d) then n / d + 1
  else if (n / d) % 2 = 0 then n / d else n / d + 1

/-- Halving `n` until it is below 2, at most `fuel` times: the number of
halvings. -/
def ilog2Aux : Nat → Nat → Nat
  | 0, _ => 0
  | fuel + 1, n => if n < 2 then 0 else ilog2Aux fuel (n / 2) + 1

/-- Position of the leading binary digit of `n`: `2 ^ ilog2 n ≤ n < 2 ^ (ilog2 n + 1)`
for `n > 0`. -/
def ilog2 (n : Nat) : Nat := ilog2Aux n n

/-- Exponent of the spacing of binary32 values around a magnitude whose integer
part is `q` units: one unit up to `2 ^ 24` units (subnormals and the first
binade), and `2 ^ (log2 q - 23)` units above (24-bit significand). -/
def F32.quantumExp (q : Nat) : Nat := ilog2 q - 23

/-- Magnitude `n / d` units rounded to the nearest binary32 magnitude. -/
def F32.roundNat (n d : Nat) : Nat :=
  roundHalfEven n (d * 2 ^ F32.quantumExp (n / d)) * 2 ^ F32.quantumExp (n / d)

/-- The binary32 value nearest to `n / d` units, ties to even. -/
def F32.round (n : Int) (d : Nat) : F32 :=
  ⟨if n < 0 then -(F32.roundNat n.natAbs d : Int) else (F32.roundNat n.natAbs d : Int)⟩

/-- Conversion of an integer to `float`. -/
def F32.ofInt (i : Int) : F32 := F32.round (i * F32.one) 1

/-- Operator `/` on `float` (divisor not zero). -/
def F32.div (a b : F32) : F32 :=
  F32.round (if b.units < 0 then -(a.units * F32.one) else a.units * F32.one) b.units.natAbs

/-- Operator `*` on `float`. -/
def F32.mul (a b : F32) : F32 := F32.round (a.units * b.units) F32.one

/-- The integer part of a binary32 value, fraction discarded (toward zero). -/
def F32.trunc (x : F32) : Int := Int.tdiv x.units F32.one

/-- Reduction of an integer to the `int16_t` with the same low 16 bits. -/
def wrapInt16 (i : Int) : Int := (i + 32768) % 65536 - 32768

/-- The conversion `int16_t(x)` of a `float`: the fraction is discarded.  The
language defines the result only when the integer part fits `int16_t`; outside
that range the low 16 bits are kept here. -/
def F32.toInt16 (x : F32) : Int := wrapInt16 x.trunc

/-- The literal `32767.0f`, also what the `int` 32767 converts to. -/
def F32.c32767 : F32 := F32.ofInt 32767

/-- What `floatData` stores for the sample `s`: `s / 32767.0f`. -/
def toFloatSample (s : Int) : F32 := F32.div (F32.ofInt s) F32.c32767

/-- What `shortData` stores for the float `f`: `int16_t(f * 32767)`. -/
def toShortSample (f : F32) : Int := F32.toInt16 (F32.mul f F32.c32767)

/-- Magnitude, in units, of the quotient `a / 32767.0f` for a natural `a`. -/
def quotUnits (a : Nat) : Nat := F32.roundNat (a * 2 ^ 298) (32767 * 2 ^ 149)

/-- Magnitude, in units, of the product `a * 32767` for a magnitude of `a` units. -/
def prodUnits (a : Nat) : Nat := F32.roundNat (a * (32767 * 2 ^ 149)) (2 ^ 149)

/-! ## The `Waveform` buffer -/

/-- The `struct Waveform`: the two public fields and the two owning pointers
(`none` is the null pointer, `some a` an allocated array). -/
structure Waveform where
  sampleRate : Nat
  sampleCount : Nat
  floats_ : Option (List F32)
  shorts_ : Option (List Int)
  deriving DecidableEq, Repr

/-- The constructor `Waveform(unsigned numSamples, unsigned rate)`. -/
def Waveform.init (numSamples rate : Nat) : Waveform :=
  { sampleRate := rate, sampleCount := numSamples, floats_ := none, shorts_ := none }

/-- The constructor call `Waveform()` with the default arguments `numSamples = 0, rate = 9600`. -/
def Waveform.initDefault : Waveform := Waveform.init 0 9600

/-- The loop of `floatData`:
`for (cnt = 0; cnt < sampleCount; ++cnt) floats_[cnt] = shorts_[cnt] / 32767.0f;`
run on the array `floats`.  A read past the end of `shorts`, which a buffer whose
arrays have `sampleCount` elements never makes, gives 0 here. -/
def Waveform.fillFloats (shorts : List Int) (sampleCount : Nat) (floats : List F32) :
    List F32 :=
  (List.range sampleCount).foldl
    (fun fl cnt => fl.set cnt (F32.div (F32.ofInt (shorts.getD cnt 0)) F32.c32767)) floats

/-- The loop of `shortData`:
`for (cnt = 0; cnt < sampleCount; ++cnt) shorts_[cnt] = int16_t(floats_[cnt] * 32767);`
run on the array `shorts`.  A read past the end of `floats`, which a buffer whose
arrays have `sampleCount` elements never makes, gives 0 here. -/
def Waveform.fillShorts (floats : List F32) (sampleCount : Nat) (shorts : List Int) :
    List Int :=
  (List.range sampleCount).foldl
    (fun sh cnt => sh.set cnt (F32.toInt16 (F32.mul (floats.getD cnt ⟨0⟩) F32.c32767))) shorts

/-- The accessor `float* Waveform::floatData()`: the new state of the buffer and the array the
returned pointer designates (`none` for a null pointer). -/
def Waveform.floatData (junk : Nat → F32) (w : Waveform) : Waveform × Option (List F32) :=
  if w.sampleCount = 0 ∨ w.floats_.isSome then (w, w.floats_)
  else
    let fresh := (List.range w.sampleCount).map junk
    let floats := match w.shorts_ with
      | some shorts => Waveform.fillFloats shorts w.sampleCount fresh
      | none => fresh
    ({ w with floats_ := some floats }, some floats)

/-- The accessor `int16_t* Waveform::shortData()`: the new state of the buffer and the array
the returned pointer designates (`none` for a null pointer). -/
def Waveform.shortData (junk : Nat → Int) (w : Waveform) : Waveform × Option (List Int) :=
  if w.sampleCount = 0 ∨ w.shorts_.isSome then (w, w.shorts_)
  else
    let fresh := (List.range w.sampleCount).map junk
    let shorts := match w.floats_ with
      | some floats => Waveform.fillShorts floats w.sampleCount fresh
      | none => fresh
    ({ w with shorts_ := some shorts }, some shorts)

/-! ## `loadWAV` -/

/-- The messages of the `std::runtime_error`s `loadWAV` throws on an opened file. -/
inductive WavError
  /-- Message `Can not read WAV header`. -/
  | cannotReadHeader
  /-- Message `Corrupted RIFF header`. -/
  | corruptedRIFF
  /-- Message `Corrupted runtime header`. -/
  | corruptedFormat
  /-- Message `Only PCM format is supported`. -/
  | onlyPCM
  /-- Message `Only 16 bit mono PCMs are supported`. -/
  | only16BitMono
  /-- Message `Corrupted data header`. -/
  | corruptedData
  /-- Message `Premature end of file`. -/
  | prematureEOF
  deriving DecidableEq, Repr

/-- How a call ends: a returned value, a thrown error, or an access outside an
object, for which C++ defines no behaviour. -/
inductive Outcome (α : Type) where
  | ok (a : α)
  | error (e : WavError)
  | undefined
  deriving DecidableEq, Repr

/-- The value of `sizeof(wavHeader)` under `#pragma pack(1)`: 8 + 4 + 24 + 64. -/
def sizeofWavHeader : Nat := 100

/-- The bytes `ifs.read(dst, count)` delivers after `ifs.seekg(pos)`. -/
def streamRead (file : List Byte) (pos count : Nat) : List Byte :=
  (file.drop pos).take count

/-- The fields `loadWAV` takes from the header once every test on it has passed:
the declared size of the format chunk, the declared size of the data chunk and
the sample rate. -/
structure HeaderInfo where
  fmtSize : Nat
  dataSize : Nat
  sampleRate : Nat
  deriving DecidableEq, Repr

/-- Lines 116-133 of `loadWAV` and the read of `dataHeader->chunkSize`: the header
is read and validated.  `hdr` is the `wavHeader` object, 100 bytes; the packed
fields sit at offsets 0 (`masterChunk.chunkID`), 8 (`WAVEmagic`),
12 (`format.chunkHeader.chunkID`), 16 (`format.chunkHeader.chunkSize`),
20 (`format.format`), 22 (`chanNo`), 24 (`samplesPerSec`), 34 (`bitsPerSample`).
`dataHeader` is the address of `format.format` plus `chunkSize`, that is offset
`20 + chunkSize` from the start of `hdr`; it is inside `hdr` only while the
bytes it is asked for end at or before offset 100. -/
def readHeader (file : List Byte) : Outcome HeaderInfo :=
  if file.length < sizeofWavHeader then .error .cannotReadHeader else
  let hdr := file.take sizeofWavHeader
  if !isChunkIDEqual hdr tagRIFF || !isChunkIDEqual (hdr.drop 8) tagWAVE then
    .error .corruptedRIFF else
  let chunkSize := u32At hdr 16
  if !isChunkIDEqual (hdr.drop 12) tagFmt || chunkSize < 16 then
    .error .corruptedFormat else
  if u16At hdr 20 != 1 then .error .onlyPCM else
  if u16At hdr 34 != 16 || u16At hdr 22 != 1 then .error .only16BitMono else
  let dataHeader := 20 + chunkSize
  if sizeofWavHeader < dataHeader + 4 then .undefined else
  if !isChunkIDEqual (hdr.drop dataHeader) tagData then .error .corruptedData else
  if sizeofWavHeader < dataHeader + 8 then .undefined else
  .ok { fmtSize := chunkSize, dataSize := u32At hdr (dataHeader + 4),
        sampleRate := u32At hdr 24 }

/-- Lines 135-140 of `loadWAV`: the buffer is built for `dataSize / sizeof(short)`
samples, `shortData()` allocates its integer storage (a null pointer for zero
samples), the stream is positioned on the byte after the data chunk header
(`dataHeader + 1`, offset `28 + fmtSize`) and `dataSize` bytes are read into the
storage.  The read stores what the file still has, at most `dataSize` bytes; the
storage holds `2 * sampleCount` bytes.  When the read succeeds every byte of the
storage has been overwritten, so its indeterminate first content is gone. -/
def readSamples (file : List Byte) (h : HeaderInfo) : Outcome Waveform :=
  let rc := Waveform.init (h.dataSize / 2) h.sampleRate
  let (rc, shorts) := rc.shortData (fun _ => 0)
  let stored := streamRead file (20 + h.fmtSize + 8) h.dataSize
  let capacity := match shorts with
    | none => 0
    | some arr => 2 * arr.length
  if capacity < stored.length then .undefined
  else if stored.length < h.dataSize then .error .prematureEOF
  else .ok { rc with
    shorts_ := shorts.map (fun arr => (List.range arr.length).map (fun i => i16At stored (2 * i))) }

/-- The function `Waveform loadWAV(const std::string& filename)` on a file that
could be opened, given by its content. -/
def loadWAV (file : List Byte) : Outcome Waveform :=
  match readHeader file with
  | .ok h => readSamples file h
  | .error e => .error e
  | .undefined => .undefined

/-- The header phase of `loadWAV` as a build runs it that performs an access
past the end of `hdr` instead of trapping it: `past` is the content of the
memory that follows the 100-byte object, and the lookup of the data chunk finds
those bytes where it leaves the object.  C++ gives such a run no meaning; this
is what the machine does with it.  Inside the object nothing differs from
`readHeader`. -/
def readHeaderPast (past : List Byte) (file : List Byte) : Outcome HeaderInfo :=
  if file.length < sizeofWavHeader then .error .cannotReadHeader else
  let hdr := file.take sizeofWavHeader
  if !isChunkIDEqual hdr tagRIFF || !isChunkIDEqual (hdr.drop 8) tagWAVE then
    .error .corruptedRIFF else
  let chunkSize := u32At hdr 16
  if !isChunkIDEqual (hdr.drop 12) tagFmt || chunkSize < 16 then
    .error .corruptedFormat else
  if u16At hdr 20 != 1 then .error .onlyPCM else
  if u16At hdr 34 != 16 || u16At hdr 22 != 1 then .error .only16BitMono else
  let dataHeader := 20 + chunkSize
  let mem := hdr ++ past
  if mem.length < dataHeader + 4 then .undefined else
  if !isChunkIDEqual (mem.drop dataHeader) tagData then .error .corruptedData else
  if mem.length < dataHeader + 8 then .undefined else
  .ok { fmtSize := chunkSize, dataSize := u32At mem (dataHeader + 4),
        sampleRate := u32At hdr 24 }

/-- The function `loadWAV` in a build that finds the bytes `past` behind `hdr`. -/
def loadWAVPast (past : List Byte) (file : List Byte) : Outcome Waveform :=
  match readHeaderPast past file with
  | .ok h => readSamples file h
  | .error e => .error e
  | .undefined => .undefined

/-! ## The specification: byte layout of section 6 and failure table of section 4.2 -/

/-- The four bytes of `file` at offset `off` are exactly the bytes of `tag`. -/
def tagAt (file : List Byte) (off : Nat) (tag : List Byte) : Prop :=
  (file.drop off).take 4 = tag

instance (file : List Byte) (off : Nat) (tag : List Byte) : Decidable (tagAt file off tag) :=
  inferInstanceAs (Decidable ((file.drop off).take 4 = tag))

/-- Offset 16 of the layout: the declared size of the format chunk. -/
def fmtSizeOf (file : List Byte) : Nat := u32At file 16

/-- Offset 24 of the layout: the declared sample rate. -/
def declaredRate (file : List Byte) : Nat := u32At file 24

/-- Offset `36 + fmtSize - 16` of the layout, where the data chunk starts. -/
def dataChunkOffset (file : List Byte) : Nat := 36 + fmtSizeOf file - 16

/-- The data byte length: the four bytes after the `data` tag. -/
def dataSizeOf (file : List Byte) : Nat := u32At file (dataChunkOffset file + 4)

/-- Number of bytes the file holds after the header of the data chunk. -/
def bytesAfterDataHeader (file : List Byte) : Nat := file.length - (dataChunkOffset file + 8)

/-- A mono, 16-bit, integer-PCM WAVE file laid out as section 6 of the
specification describes. -/
def SpecValidWav (file : List Byte) : Prop :=
  tagAt file 0 tagRIFF ∧ tagAt file 8 tagWAVE ∧ tagAt file 12 tagFmt ∧ 16 ≤ fmtSizeOf file ∧
  u16At file 20 = 1 ∧ u16At file 22 = 1 ∧ u16At file 34 = 16 ∧
  tagAt file (dataChunkOffset file) tagData ∧ dataChunkOffset file + 8 ≤ file.length ∧
  dataSizeOf file ≤ bytesAfterDataHeader file

instance (file : List Byte) : Decidable (SpecValidWav file) := by
  unfold SpecValidWav; infer_instance

/-- The failure table of section 4.2 of the specification, read top to bottom
on the bytes of the file: the kind of the first condition that is violated, if
any. -/
def specFirstViolation (file : List Byte) : Option WavError :=
  if file.length < 100 then some .cannotReadHeader
  else if ¬ tagAt file 0 tagRIFF ∨ ¬ tagAt file 8 tagWAVE then some .corruptedRIFF
  else if ¬ tagAt file 12 tagFmt ∨ fmtSizeOf file < 16 then some .corruptedFormat
  else if u16At file 20 ≠ 1 then some .onlyPCM
  else if u16At file 34 ≠ 16 ∨ u16At file 22 ≠ 1 then some .only16BitMono
  else if ¬ tagAt file (dataChunkOffset file) tagData then some .corruptedData
  else if bytesAfterDataHeader file < dataSizeOf file then some .prematureEOF
  else none

/-! ## Test files and test buffers -/

/-- A 16-bit field, little-endian. -/
def le16 (n : Nat) : List Byte := [Fin.ofNat n, Fin.ofNat (n / 256)]

/-- A 32-bit field, little-endian. -/
def le32 (n : Nat) : List Byte :=
  [Fin.ofNat n, Fin.ofNat (n / 256), Fin.ofNat (n / 65536), Fin.ofNat (n / 16777216)]

/-- A WAVE file: master chunk of declared size `riffSize`, format chunk of
declared size `fmtSize` whose body is the 16 standard bytes followed by `extra`,
then `tail`. -/
def wavFile (riffSize fmtSize : Nat) (format chanNo rate bits : Nat)
    (extra tail : List Byte) : List Byte :=
  tagRIFF ++ le32 riffSize ++ tagWAVE ++ tagFmt ++ le32 fmtSize
    ++ le16 format ++ le16 chanNo ++ le32 rate ++ le32 (2 * rate) ++ le16 2 ++ le16 bits
    ++ extra ++ tail

/-- A data chunk: tag, declared size, payload. -/
def dataChunk (dataSize : Nat) (payload : List Byte) : List Byte :=
  tagData ++ le32 dataSize ++ payload

/-- The samples 1, -1 as file bytes. -/
def twoSamples : List Byte := [1, 0, 255, 255]

/-- A 48-byte file: canonical 44-byte header and two samples. -/
def shortFile : List Byte := wavFile 40 16 1 1 16000 16 [] (dataChunk 4 twoSamples)

/-- A 104-byte file: canonical 44-byte header and thirty samples. -/
def smallFile : List Byte :=
  wavFile 96 16 1 1 16000 16 [] (dataChunk 60 (List.replicate 56 0 ++ twoSamples))

/-- A 112-byte file whose format chunk declares 80 bytes; the data chunk sits at
offset 100. -/
def file80 : List Byte :=
  wavFile 104 80 1 1 16000 16 (List.replicate 64 0) (dataChunk 4 twoSamples)

/-- A 105-byte file whose format chunk declares 73 bytes; the data chunk sits at
offset 93, its size field ends at offset 101. -/
def file73 : List Byte :=
  wavFile 97 73 1 1 16000 16 (List.replicate 57 0) (dataChunk 4 twoSamples)

/-- The 105-byte file `file73` with the last byte of its data size field, file
byte 100, set to 1: the data chunk declares 16777220 bytes and four follow. -/
def file73Big : List Byte :=
  wavFile 97 73 1 1 16000 16 (List.replicate 57 0) (dataChunk 16777220 twoSamples)

/-- A 106-byte file whose format chunk declares 18 bytes and carries two extra
bytes; the data chunk sits at offset 38. -/
def file18 : List Byte :=
  wavFile 98 18 1 1 16000 16 [0, 0] (dataChunk 60 (List.replicate 56 0 ++ twoSamples))

/-- A 104-byte file whose format chunk declares 18 bytes while the data chunk
sits at offset 36. -/
def file18At36 : List Byte :=
  wavFile 96 18 1 1 16000 16 [] (dataChunk 60 (List.replicate 56 0 ++ twoSamples))

/-- A 105-byte file with the canonical header and an odd data size, 61. -/
def oddFile : List Byte :=
  wavFile 97 16 1 1 16000 16 [] (dataChunk 61 (List.replicate 57 0 ++ twoSamples))

/-- A 104-byte file whose last three samples are 32767, -32767 and 0. -/
def boundaryFile : List Byte :=
  wavFile 96 16 1 1 16000 16 []
    (dataChunk 60 (List.replicate 54 0 ++ [0xFF, 0x7F, 0x01, 0x80, 0x00, 0x00]))

/-- The buffer `loadWAV` returns for `boundaryFile`. -/
def boundaryBuffer : Waveform :=
  { sampleRate := 16000, sampleCount := 30, floats_ := none,
    shorts_ := some (List.replicate 27 0 ++ [32767, -32767, 0]) }

/-- The `float` nearest to `0.9 / 32767`. -/
def f09 : F32 := F32.round (9 * 2 ^ 149) 327670

/-- The `float` nearest to `-0.9 / 32767`. -/
def fm09 : F32 := F32.round (-(9 * 2 ^ 149)) 327670

/-- The `float` nearest to `100.7 / 32767`. -/
def f1007 : F32 := F32.round (1007 * 2 ^ 149) 327670

/-- A buffer of three samples that holds only its float representation. -/
def floatOnlyBuffer : Waveform :=
  { sampleRate := 9600, sampleCount := 3, floats_ := some [f09, fm09, f1007], shorts_ := none }

/-- The two bytes of an `int16_t`, low byte first. -/
def encodeInt16 (s : Int) : List Byte := le16 (s % 65536).toNat

/-- The payload of a data chunk holding the samples `xs`. -/
def encodeSamples : List Int → List Byte
  | [] => []
  | s :: xs => encodeInt16 s ++ encodeSamples xs

/-- Sample `i` of the ramp: -8000, -7999, and so on. -/
def rampSample (i : Nat) : Int := (i : Int) - 8000

/-- One second of a ramp at 16000 Hz. -/
def ramp : List Int := (List.range 16000).map rampSample

/-- The canonical 44-byte header for 16000 Hz and 32000 data bytes. -/
def rampHeader : List Byte := wavFile 32036 16 1 1 16000 16 [] (dataChunk 32000 [])

/-- The ramp as a file of 32044 bytes. -/
def rampFile : List Byte :=
  wavFile 32036 16 1 1 16000 16 [] (dataChunk 32000 (encodeSamples ramp))

/-! ## Moves, and the buffers of a program -/

/-- The state a `Waveform` is left in when it has been moved from: the two
`unique_ptr` members are null after `std::move`, `sampleCount` is set to 0 and
`sampleRate` is not touched. -/
def Waveform.movedFrom (other : Waveform) : Waveform :=
  { other with sampleCount := 0, floats_ := none, shorts_ := none }

/-- The move constructor `Waveform(Waveform&& other)`: the object that is built
and the state of `other` afterwards. -/
def Waveform.moveConstruct (other : Waveform) : Waveform × Waveform :=
  ({ sampleRate := other.sampleRate, sampleCount := other.sampleCount,
     floats_ := other.floats_, shorts_ := other.shorts_ },
   other.movedFrom)

/-- The move assignment `operator=(Waveform&& other)` on an object `self` other
than `other`: the state of `self` and the state of `other` afterwards.  The
arrays `self` held before are released. -/
def Waveform.moveAssign (_self other : Waveform) : Waveform × Waveform :=
  ({ sampleCount := other.sampleCount, sampleRate := other.sampleRate,
     floats_ := other.floats_, shorts_ := other.shorts_ },
   other.movedFrom)

/-- One operation of a program on its `Waveform` objects, which are numbered in
the order of their construction.  A move assignment names two different
objects. -/
inductive BufferOp where
  /-- A call `Waveform(numSamples, rate)`. -/
  | construct (numSamples rate : Nat)
  /-- A call `floatData()` on object `i`; `junk` is what the allocation holds. -/
  | floatData (i : Nat) (junk : Nat → F32)
  /-- A call `shortData()` on object `i`; `junk` is what the allocation holds. -/
  | shortData (i : Nat) (junk : Nat → Int)
  /-- A new object move-constructed from object `src`. -/
  | moveConstruct (src : Nat)
  /-- The assignment of object `src` to object `dst` by move. -/
  | moveAssign (dst src : Nat) (distinct : dst ≠ src)

/-- The effect of one operation on the objects of the program.  An operation
on a number no object has yet does nothing. -/
def BufferOp.apply (store : List Waveform) : BufferOp → List Waveform
  | .construct numSamples rate => store ++ [Waveform.init numSamples rate]
  | .floatData i junk =>
    match store[i]? with
    | some w => store.set i (w.floatData junk).1
    | none => store
  | .shortData i junk =>
    match store[i]? with
    | some w => store.set i (w.shortData junk).1
    | none => store
  | .moveConstruct src =>
    match store[src]? with
    | some w => store.set src w.moveConstruct.2 ++ [w.moveConstruct.1]
    | none => store
  | .moveAssign dst src _ =>
    match store[dst]?, store[src]? with
    | some d, some w => (store.set dst (d.moveAssign w).1).set src (d.moveAssign w).2
    | _, _ => store

/-- The objects of a program after the operations `ops`, from no object at all. -/
def runBufferOps (ops : List BufferOp) : List Waveform :=
  ops.foldl BufferOp.apply []

/-- The condition the operations keep on every object: without samples it
holds no array, and an array it holds has `sampleCount` elements. -/
def Waveform.Consistent (w : Waveform) : Prop :=
  (w.sampleCount = 0 → w.floats_ = none ∧ w.shorts_ = none) ∧
  (∀ floats, w.floats_ = some floats → floats.length = w.sampleCount) ∧
  (∀ shorts, w.shorts_ = some shorts → shorts.length = w.sampleCount)

/-- A program on three objects: a buffer of three samples is built, both of its
views are asked for, it is moved into a new object, and that one is assigned to
a default-constructed third. -/
def sampleOps : List BufferOp :=
  [.construct 3 16000, .shortData 0 (fun _ => 0), .floatData 0 (fun _ => ⟨0⟩),
   .moveConstruct 0, .construct 0 9600, .moveAssign 2 1 (by decide)]

/-- The third object of `sampleOps` at the end of the program. -/
def sampleOpsLast : Waveform :=
  { sampleRate := 16000, sampleCount := 3, floats_ := some [⟨0⟩, ⟨0⟩, ⟨0⟩],
    shorts_ := some [0, 0, 0] }

/-! ## Files that differ in the unchecked fields -/

/-- The offsets of the fields the layout calls unchecked: the total RIFF size
(4..7), the byte rate (28..31) and the block alignment (32..33). -/
def isInfoOffset (i : Nat) : Prop := (4 ≤ i ∧ i < 8) ∨ (28 ≤ i ∧ i < 34)

instance (i : Nat) : Decidable (isInfoOffset i) := by
  unfold isInfoOffset; infer_instance

/-- Two files of the same length that differ at most in the total RIFF size, the
byte rate and the block alignment. -/
def SameButInfoFields (f1 f2 : List Byte) : Prop :=
  f1.length = f2.length ∧ ∀ i, i < f1.length → ¬ isInfoOffset i → f1[i]? = f2[i]?

instance (f1 f2 : List Byte) : Decidable (SameButInfoFields f1 f2) := by
  unfold SameButInfoFields; infer_instance

/-- The 104-byte file `smallFile` with other numbers in its three unchecked
fields. -/
def smallFileOtherInfo : List Byte :=
  tagRIFF ++ le32 7 ++ tagWAVE ++ tagFmt ++ le32 16 ++ le16 1 ++ le16 1 ++ le32 16000
    ++ le32 123456 ++ le16 9 ++ le16 16 ++ dataChunk 60 (List.replicate 56 0 ++ twoSamples)

/-! ## The bytes stored by the read of the samples -/

/-- The number of bytes the `ifs.read` of line 138 stores through `shorts`: what
the file still has after the data chunk header, at most `dataSize`. -/
def storedByteCount (file : List Byte) (h : HeaderInfo) : Nat :=
  (streamRead file (20 + h.fmtSize + 8) h.dataSize).length

/-- The size in bytes of the storage `rc.shortData()` returns at line 136 for
the buffer of line 135; a null pointer has room for nothing. -/
def storageCapacity (h : HeaderInfo) : Nat :=
  match ((Waveform.init (h.dataSize / 2) h.sampleRate).shortData (fun _ => 0)).2 with
  | none => 0
  | some arr => 2 * arr.length

/-- A 101-byte file with the canonical header and a data chunk that declares
one byte; 57 bytes follow the data chunk header, so that the file fills the
100 bytes of `wavHeader`. -/
def oneByteFile : List Byte :=
  wavFile 93 16 1 1 16000 16 [] (dataChunk 1 (List.replicate 57 0))

/-! ## The frame loop of `main` -/

/-- The `double` 1.0 in units of 2^-1074.  A non-negative finite `double` is
kept as its integer number of such units. -/
def F64.one : Nat := 2 ^ 1074

/-- The exponent of the spacing of binary64 values, in units, at magnitude `q`
units: 53 significant bits, spacing one unit for subnormals. -/
def F64.quantumExp (q : Nat) : Nat := ilog2 q - 52

/-- The binary64 value nearest to `n / d` units, ties to even. -/
def F64.roundNat (n d : Nat) : Nat :=
  roundHalfEven n (d * 2 ^ F64.quantumExp (n / d)) * 2 ^ F64.quantumExp (n / d)

/-- The conversion of an `unsigned` to `double`. -/
def F64.ofNat (r : Nat) : Nat := F64.roundNat (r * F64.one) 1

/-- The literal `1e-2`: the `double` nearest to 1/100. -/
def F64.c001 : Nat := F64.roundNat F64.one 100

/-- The product of two `double` values. -/
def F64.mul (a b : Nat) : Nat := F64.roundNat (a * b) F64.one

/-- The integer part of a non-negative `double`. -/
def F64.trunc (x : Nat) : Nat := x / F64.one

/-- Line 87 of `main`: `static_cast<unsigned int>(wav.sampleRate * 1e-2)`, the
number of samples of one frame: the rate is converted to `double`, multiplied
by the literal, and the product loses its fraction on the way to a 32-bit
unsigned value. -/
def bufferSizeOf (sampleRate : Nat) : Nat :=
  F64.trunc (F64.mul (F64.ofNat sampleRate) F64.c001) % 4294967296

/-- How far a run of the loop of lines 102-119 has come. -/
inductive LoopStatus where
  /-- The iterations that were granted are used up and the loop goes on. -/
  | running
  /-- The loop condition was false: control is at line 120. -/
  | finished
  /-- A call of `ovrLipSync_ProcessFrame` failed: `main` returned -1. -/
  | failed
  deriving DecidableEq, Repr

/-- One call `ovrLipSync_ProcessFrame(ctx, wav.floatData() + offs, &frame)`: the
array `floatData()` returned and the offset added to it.  The engine was set up
for frames of `bufferSize` samples, so the window it is given is
`view[offs], .., view[offs + bufferSize - 1]`. -/
structure FrameCall where
  offs : Nat
  view : Option (List F32)

/-- The loop of lines 102-119,
`for (auto offs(0u); offs + bufferSize < wav.sampleCount; offs += bufferSize)`,
run for at most `fuel` iterations from the state `offs`, `wav`, with `call`
frames already processed.  The engine is not part of the sources: `engine k`
says whether call number `k` of `ovrLipSync_ProcessFrame` succeeds.  `offs` and
`bufferSize` are `unsigned int`, so their sum is taken modulo 2^32.  The result
is the list of the calls made and the status reached. -/
def frameLoop (engine : Nat → Bool) (junk : Nat → F32) (bufferSize : Nat) :
    Nat → Nat → Nat → Waveform → List FrameCall × LoopStatus
  | 0, _, _, _ => ([], .running)
  | fuel + 1, call, offs, wav =>
    if (offs + bufferSize) % 4294967296 < wav.sampleCount then
      if engine call then
        (⟨offs, (wav.floatData junk).2⟩ ::
          (frameLoop engine junk bufferSize fuel (call + 1)
            ((offs + bufferSize) % 4294967296) (wav.floatData junk).1).1,
         (frameLoop engine junk bufferSize fuel (call + 1)
            ((offs + bufferSize) % 4294967296) (wav.floatData junk).1).2)
      else ([⟨offs, (wav.floatData junk).2⟩], .failed)
    else ([], .finished)

/-- Lines 64, 80 and 87-119 of `main` once `loadWAV` has returned `loaded` and
the engine has been set up: the buffer is move-assigned to the
default-constructed `wav`, the frame size is computed from its sample rate, and
the loop runs from offset 0. -/
def processFrames (engine : Nat → Bool) (junk : Nat → F32) (loaded : Waveform) (fuel : Nat) :
    List FrameCall × LoopStatus :=
  frameLoop engine junk (bufferSizeOf (Waveform.initDefault.moveAssign loaded).1.sampleRate)
    fuel 0 0 (Waveform.initDefault.moveAssign loaded).1

/-- An engine that processes every frame it is given. -/
def engineOk : Nat → Bool := fun _ => true

/-- A 104-byte file as `smallFile`, thirty samples, with a declared sample rate
of 50 Hz. -/
def slowFile : List Byte :=
  wavFile 96 16 1 1 50 16 [] (dataChunk 60 (List.replicate 56 0 ++ twoSamples))

/-- The buffer `loadWAV` returns for `slowFile`. -/
def slowBuffer : Waveform :=
  { sampleRate := 50, sampleCount := 30, floats_ := none,
    shorts_ := some (List.replicate 28 0 ++ [1, -1]) }

/-- A 104-byte file as `smallFile`, thirty samples, with a declared sample rate
of 1000 Hz: frames of ten samples. -/
def kiloFile : List Byte :=
  wavFile 96 16 1 1 1000 16 [] (dataChunk 60 (List.replicate 56 0 ++ twoSamples))

/-- The buffer `loadWAV` returns for `kiloFile`. -/
def kiloBuffer : Waveform :=
  { sampleRate := 1000, sampleCount := 30, floats_ := none,
    shorts_ := some (List.replicate 28 0 ++ [1, -1]) }

/-- The buffer `loadWAV` returns for `rampFile`. -/
def rampBuffer : Waveform :=
  { sampleRate := 16000, sampleCount := 16000, floats_ := none, shorts_ := some ramp }

/-! ## Lemmas on bytes and on the two phases of `loadWAV` -/

theorem byteAt_lt (mem : List Byte) (off : Nat) : byteAt mem off < 256 := (mem.getD off 0).isLt

theorem byteAt_take {mem : List Byte} {n off : Nat} (h : off < n) :
    byteAt (mem.take n) off = byteAt mem off := by
  simp [byteAt, List.getElem?_take, h]

theorem u16At_take {mem : List Byte} {n off : Nat} (h : off + 2 ≤ n) :
    u16At (mem.take n) off = u16At mem off := by
  simp only [u16At]
  rw [byteAt_take (by omega), byteAt_take (by omega)]

theorem u32At_take {mem : List Byte} {n off : Nat} (h : off + 4 ≤ n) :
    u32At (mem.take n) off = u32At mem off := by
  simp only [u32At]
  rw [byteAt_take (by omega), byteAt_take (by omega), byteAt_take (by omega),
    byteAt_take (by omega)]

theorem u32At_lt (mem : List Byte) (off : Nat) : u32At mem off < 2 ^ 32 := by
  have h0 := byteAt_lt mem off
  have h1 := byteAt_lt mem (off + 1)
  have h2 := byteAt_lt mem (off + 2)
  have h3 := byteAt_lt mem (off + 3)
  simp only [u32At]
  omega

theorem isChunkIDEqual_iff (mem tag : List Byte) (hm : 4 ≤ mem.length) (ht : tag.length = 4) :
    isChunkIDEqual mem tag = true ↔ mem.take 4 = tag := by
  match mem, tag, hm, ht with
  | a :: b :: c :: d :: rest, [t0, t1, t2, t3], _, _ =>
    simp only [isChunkIDEqual, u32At, byteAt, beq_iff_eq]
    simp
    constructor
    · intro h; refine ⟨?_, ?_, ?_, ?_⟩ <;> apply Fin.ext <;> omega
    · rintro ⟨rfl, rfl, rfl, rfl⟩; rfl

/-- A tag test made on the header object is the exact comparison of four bytes
of the file. -/
theorem isChunkIDEqual_hdr (file tag : List Byte) (off : Nat) (hlen : sizeofWavHeader ≤ file.length)
    (hoff : off + 4 ≤ sizeofWavHeader) (ht : tag.length = 4) :
    isChunkIDEqual ((file.take sizeofWavHeader).drop off) tag = true ↔ tagAt file off tag := by
  rw [isChunkIDEqual_iff _ _ (by simp; omega) ht, tagAt, List.drop_take, List.take_take]
  have : min 4 (sizeofWavHeader - off) = 4 := by omega
  rw [this]

theorem isChunkIDEqual_hdr_decide (file tag : List Byte) (off : Nat)
    (hlen : sizeofWavHeader ≤ file.length) (hoff : off + 4 ≤ sizeofWavHeader)
    (ht : tag.length = 4) :
    isChunkIDEqual ((file.take sizeofWavHeader).drop off) tag = decide (tagAt file off tag) := by
  rw [Bool.eq_iff_iff, decide_eq_true_iff]
  exact isChunkIDEqual_hdr file tag off hlen hoff ht

/-- The header phase of `loadWAV`, with every test read on the bytes of the file. -/
theorem readHeader_eq (file : List Byte) :
    readHeader file =
      if file.length < 100 then .error .cannotReadHeader
      else if ¬ tagAt file 0 tagRIFF ∨ ¬ tagAt file 8 tagWAVE then .error .corruptedRIFF
      else if ¬ tagAt file 12 tagFmt ∨ fmtSizeOf file < 16 then .error .corruptedFormat
      else if u16At file 20 ≠ 1 then .error .onlyPCM
      else if u16At file 34 ≠ 16 ∨ u16At file 22 ≠ 1 then .error .only16BitMono
      else if 76 < fmtSizeOf file then .undefined
      else if ¬ tagAt file (20 + fmtSizeOf file) tagData then .error .corruptedData
      else if 72 < fmtSizeOf file then .undefined
      else .ok { fmtSize := fmtSizeOf file, dataSize := dataSizeOf file,
                 sampleRate := declaredRate file } := by
  unfold readHeader
  by_cases hlen : file.length < 100
  · simp [sizeofWavHeader, hlen]
  have hl : sizeofWavHeader ≤ file.length := by simp only [sizeofWavHeader]; omega
  have e0 := isChunkIDEqual_hdr_decide file tagRIFF 0 hl (by decide) rfl
  have e8 := isChunkIDEqual_hdr_decide file tagWAVE 8 hl (by decide) rfl
  have e12 := isChunkIDEqual_hdr_decide file tagFmt 12 hl (by decide) rfl
  rw [List.drop_zero] at e0
  have hs : u32At (file.take sizeofWavHeader) 16 = fmtSizeOf file := u32At_take (by decide)
  have h20 : u16At (file.take sizeofWavHeader) 20 = u16At file 20 := u16At_take (by decide)
  have h22 : u16At (file.take sizeofWavHeader) 22 = u16At file 22 := u16At_take (by decide)
  have h34 : u16At (file.take sizeofWavHeader) 34 = u16At file 34 := u16At_take (by decide)
  have h24 : u32At (file.take sizeofWavHeader) 24 = declaredRate file := u32At_take (by decide)
  simp only [hs, h20, h22, h34, h24, e0, e8, e12]
  rw [if_neg (by simp only [sizeofWavHeader]; omega), if_neg hlen]
  by_cases hbig : 76 < fmtSizeOf file
  · have hb1 : sizeofWavHeader < 20 + fmtSizeOf file + 4 := by
      simp only [sizeofWavHeader]; omega
    have hb2 : 72 < fmtSizeOf file := by omega
    simp only [hb1, hbig, if_true]
    simp
  · have hb1 : ¬ sizeofWavHeader < 20 + fmtSizeOf file + 4 := by
      simp only [sizeofWavHeader]; omega
    have ed := isChunkIDEqual_hdr_decide file tagData (20 + fmtSizeOf file) hl
      (by simp only [sizeofWavHeader]; omega) rfl
    simp only [hb1, hbig, if_false, ed]
    by_cases h72 : 72 < fmtSizeOf file
    · have hb2 : sizeofWavHeader < 20 + fmtSizeOf file + 8 := by
        simp only [sizeofWavHeader]; omega
      simp only [hb2, h72, if_true]
      simp
    · have hb2 : ¬ sizeofWavHeader < 20 + fmtSizeOf file + 8 := by
        simp only [sizeofWavHeader]; omega
      have hd : u32At (file.take sizeofWavHeader) (20 + fmtSizeOf file + 4) = dataSizeOf file := by
        rw [u32At_take (by simp only [sizeofWavHeader]; omega)]
        simp only [dataSizeOf, dataChunkOffset]
        congr 1
        omega
      simp only [hb2, h72, if_false, hd]
      simp

theorem byteAt_drop (mem : List Byte) (n off : Nat) :
    byteAt (mem.drop n) off = byteAt mem (n + off) := by
  simp [byteAt]

theorem i16At_streamRead (file : List Byte) (pos count off : Nat) (h : off + 2 ≤ count) :
    i16At (streamRead file pos count) off = i16At file (pos + off) := by
  simp only [i16At, u16At, streamRead]
  rw [byteAt_take (by omega), byteAt_take (by omega), byteAt_drop, byteAt_drop]
  rfl

theorem length_streamRead (file : List Byte) (pos count : Nat) :
    (streamRead file pos count).length = min count (file.length - pos) := by
  simp [streamRead]

/-- The sample phase of `loadWAV` by cases on the declared data size. -/
theorem readSamples_eq (file : List Byte) (h : HeaderInfo) :
    readSamples file h =
      if file.length - (28 + h.fmtSize) < h.dataSize then .error .prematureEOF
      else if h.dataSize % 2 = 1 then .undefined
      else .ok { sampleRate := h.sampleRate, sampleCount := h.dataSize / 2, floats_ := none,
                 shorts_ := if h.dataSize / 2 = 0 then none else
                   some ((List.range (h.dataSize / 2)).map
                     (fun i => i16At file (28 + h.fmtSize + 2 * i))) } := by
  have hlen := length_streamRead file (20 + h.fmtSize + 8) h.dataSize
  have h28 : 20 + h.fmtSize + 8 = 28 + h.fmtSize := by omega
  by_cases hn : h.dataSize / 2 = 0
  · simp only [readSamples, Waveform.init, Waveform.shortData, hn, true_or, if_true, hlen,
      Option.map_none']
    by_cases h0 : h.dataSize = 0
    · simp [h0]
    · have h1 : h.dataSize = 1 := by omega
      by_cases ha : file.length - (28 + h.fmtSize) = 0
      · simp [h1, h28, ha]
      · have : min 1 (file.length - (28 + h.fmtSize)) = 1 := by omega
        have hb : ¬ file.length - (28 + h.fmtSize) < 1 := by omega
        simp only [h1, h28, this, hb]
        simp
  · simp only [readSamples, Waveform.init, Waveform.shortData, hn, Option.isSome_none,
      Bool.false_eq_true, or_self, if_false, hlen, List.length_map, List.length_range,
      Option.map_some']
    by_cases ha : file.length - (28 + h.fmtSize) < h.dataSize
    · have h1 : ¬ 2 * (h.dataSize / 2) < min h.dataSize (file.length - (20 + h.fmtSize + 8)) := by
        omega
      have h2 : min h.dataSize (file.length - (20 + h.fmtSize + 8)) < h.dataSize := by omega
      simp only [h1, h2, ha, if_true, if_false]
    · by_cases hodd : h.dataSize % 2 = 1
      · have h1 : 2 * (h.dataSize / 2) < min h.dataSize (file.length - (20 + h.fmtSize + 8)) := by
          omega
        simp only [h1, ha, hodd, if_true, if_false]
      · have h1 : ¬ 2 * (h.dataSize / 2) < min h.dataSize (file.length - (20 + h.fmtSize + 8)) := by
          omega
        have h2 : ¬ min h.dataSize (file.length - (20 + h.fmtSize + 8)) < h.dataSize := by omega
        simp only [h1, h2, ha, hodd, if_false]
        congr 3
        apply List.map_congr_left
        intro i hi
        rw [List.mem_range] at hi
        rw [i16At_streamRead _ _ _ _ (by omega)]
        congr 1
        omega

/-- The function `loadWAV` as one chain of tests on the bytes of the file. -/
theorem loadWAV_eq (file : List Byte) :
    loadWAV file =
      if file.length < 100 then .error .cannotReadHeader
      else if ¬ tagAt file 0 tagRIFF ∨ ¬ tagAt file 8 tagWAVE then .error .corruptedRIFF
      else if ¬ tagAt file 12 tagFmt ∨ fmtSizeOf file < 16 then .error .corruptedFormat
      else if u16At file 20 ≠ 1 then .error .onlyPCM
      else if u16At file 34 ≠ 16 ∨ u16At file 22 ≠ 1 then .error .only16BitMono
      else if 76 < fmtSizeOf file then .undefined
      else if ¬ tagAt file (20 + fmtSizeOf file) tagData then .error .corruptedData
      else if 72 < fmtSizeOf file then .undefined
      else if file.length - (28 + fmtSizeOf file) < dataSizeOf file then .error .prematureEOF
      else if dataSizeOf file % 2 = 1 then .undefined
      else .ok { sampleRate := declaredRate file, sampleCount := dataSizeOf file / 2,
                 floats_ := none,
                 shorts_ := if dataSizeOf file / 2 = 0 then none else
                   some ((List.range (dataSizeOf file / 2)).map
                     (fun i => i16At file (28 + fmtSizeOf file + 2 * i))) } := by
  unfold loadWAV
  rw [readHeader_eq]
  by_cases c1 : file.length < 100
  · rw [if_pos c1, if_pos c1]
  rw [if_neg c1, if_neg c1]
  by_cases c2 : ¬ tagAt file 0 tagRIFF ∨ ¬ tagAt file 8 tagWAVE
  · rw [if_pos c2, if_pos c2]
  rw [if_neg c2, if_neg c2]
  by_cases c3 : ¬ tagAt file 12 tagFmt ∨ fmtSizeOf file < 16
  · rw [if_pos c3, if_pos c3]
  rw [if_neg c3, if_neg c3]
  by_cases c4 : u16At file 20 ≠ 1
  · rw [if_pos c4, if_pos c4]
  rw [if_neg c4, if_neg c4]
  by_cases c5 : u16At file 34 ≠ 16 ∨ u16At file 22 ≠ 1
  · rw [if_pos c5, if_pos c5]
  rw [if_neg c5, if_neg c5]
  by_cases c6 : 76 < fmtSizeOf file
  · rw [if_pos c6, if_pos c6]
  rw [if_neg c6, if_neg c6]
  by_cases c7 : ¬ tagAt file (20 + fmtSizeOf file) tagData
  · rw [if_pos c7, if_pos c7]
  rw [if_neg c7, if_neg c7]
  by_cases c8 : 72 < fmtSizeOf file
  · rw [if_pos c8, if_pos c8]
  rw [if_neg c8, if_neg c8]
  exact readSamples_eq file _

theorem dataChunkOffset_eq (file : List Byte) (h : 16 ≤ fmtSizeOf file) :
    dataChunkOffset file = 20 + fmtSizeOf file := by
  simp only [dataChunkOffset]; omega

/-- What an accepted file looks like, from `loadWAV_eq`. -/
theorem loadWAV_ok_cases (file : List Byte) (w : Waveform) (h : loadWAV file = .ok w) :
    100 ≤ file.length ∧ tagAt file 0 tagRIFF ∧ tagAt file 8 tagWAVE ∧ tagAt file 12 tagFmt ∧
    16 ≤ fmtSizeOf file ∧ fmtSizeOf file ≤ 72 ∧ u16At file 20 = 1 ∧ u16At file 22 = 1 ∧
    u16At file 34 = 16 ∧ tagAt file (20 + fmtSizeOf file) tagData ∧
    28 + fmtSizeOf file + dataSizeOf file ≤ file.length ∧ dataSizeOf file % 2 = 0 ∧
    w = { sampleRate := declaredRate file, sampleCount := dataSizeOf file / 2, floats_ := none,
          shorts_ := if dataSizeOf file / 2 = 0 then none else
            some ((List.range (dataSizeOf file / 2)).map
              (fun i => i16At file (28 + fmtSizeOf file + 2 * i))) } := by
  rw [loadWAV_eq] at h
  by_cases c1 : file.length < 100
  · rw [if_pos c1] at h; exact Outcome.noConfusion h
  rw [if_neg c1] at h
  by_cases c2 : ¬ tagAt file 0 tagRIFF ∨ ¬ tagAt file 8 tagWAVE
  · rw [if_pos c2] at h; exact Outcome.noConfusion h
  rw [if_neg c2] at h
  by_cases c3 : ¬ tagAt file 12 tagFmt ∨ fmtSizeOf file < 16
  · rw [if_pos c3] at h; exact Outcome.noConfusion h
  rw [if_neg c3] at h
  by_cases c4 : u16At file 20 ≠ 1
  · rw [if_pos c4] at h; exact Outcome.noConfusion h
  rw [if_neg c4] at h
  by_cases c5 : u16At file 34 ≠ 16 ∨ u16At file 22 ≠ 1
  · rw [if_pos c5] at h; exact Outcome.noConfusion h
  rw [if_neg c5] at h
  by_cases c6 : 76 < fmtSizeOf file
  · rw [if_pos c6] at h; exact Outcome.noConfusion h
  rw [if_neg c6] at h
  by_cases c7 : ¬ tagAt file (20 + fmtSizeOf file) tagData
  · rw [if_pos c7] at h; exact Outcome.noConfusion h
  rw [if_neg c7] at h
  by_cases c8 : 72 < fmtSizeOf file
  · rw [if_pos c8] at h; exact Outcome.noConfusion h
  rw [if_neg c8] at h
  by_cases c9 : file.length - (28 + fmtSizeOf file) < dataSizeOf file
  · rw [if_pos c9] at h; exact Outcome.noConfusion h
  rw [if_neg c9] at h
  by_cases c10 : dataSizeOf file % 2 = 1
  · rw [if_pos c10] at h; exact Outcome.noConfusion h
  rw [if_neg c10] at h
  rw [not_or, not_not, not_not] at c2
  rw [not_or, not_not, not_lt] at c3
  rw [not_not] at c4 c7
  rw [not_or, not_not, not_not] at c5
  refine ⟨by omega, c2.1, c2.2, c3.1, c3.2, by omega, c4, c5.2, c5.1, c7, by omega, by omega, ?_⟩
  exact (Outcome.ok.inj h).symm

theorem specFirstViolation_eq (file : List Byte) :
    specFirstViolation file =
      if file.length < 100 then some .cannotReadHeader
      else if ¬ tagAt file 0 tagRIFF ∨ ¬ tagAt file 8 tagWAVE then some .corruptedRIFF
      else if ¬ tagAt file 12 tagFmt ∨ fmtSizeOf file < 16 then some .corruptedFormat
      else if u16At file 20 ≠ 1 then some .onlyPCM
      else if u16At file 34 ≠ 16 ∨ u16At file 22 ≠ 1 then some .only16BitMono
      else if ¬ tagAt file (20 + fmtSizeOf file) tagData then some .corruptedData
      else if file.length - (28 + fmtSizeOf file) < dataSizeOf file then some .prematureEOF
      else none := by
  unfold specFirstViolation
  by_cases c3 : ¬ tagAt file 12 tagFmt ∨ fmtSizeOf file < 16
  · simp only [if_pos c3]
  · have hsz : 16 ≤ fmtSizeOf file := by
      rw [not_or, not_lt] at c3; exact c3.2
    have e : 28 + fmtSizeOf file = 20 + fmtSizeOf file + 8 := by omega
    simp only [bytesAfterDataHeader, dataChunkOffset_eq file hsz, e]

theorem i16At_range (mem : List Byte) (off : Nat) :
    -32768 ≤ i16At mem off ∧ i16At mem off ≤ 32767 := by
  have h0 := byteAt_lt mem off
  have h1 := byteAt_lt mem (off + 1)
  unfold i16At u16At
  split_ifs <;> omega

/-! ## The ramp file -/

theorem length_encodeSamples (xs : List Int) : (encodeSamples xs).length = 2 * xs.length := by
  induction xs with
  | nil => rfl
  | cons s xs ih => simp [encodeSamples, encodeInt16, le16, ih]; omega

theorem i16At_encodeSamples (xs : List Int) (i : Nat) (s : Int) (h : xs[i]? = some s)
    (h1 : -32768 ≤ s) (h2 : s ≤ 32767) : i16At (encodeSamples xs) (2 * i) = s := by
  induction xs generalizing i with
  | nil => simp at h
  | cons x xs ih =>
    cases i with
    | zero =>
      simp only [List.getElem?_cons_zero, Option.some.injEq] at h
      subst h
      simp only [encodeSamples, encodeInt16, le16, i16At, u16At, byteAt]
      simp [Fin.ofNat]
      omega
    | succ j =>
      simp only [List.getElem?_cons_succ] at h
      have := ih j h
      simp only [encodeSamples, encodeInt16, le16, i16At, u16At, byteAt] at this ⊢
      have e : 2 * (j + 1) = 2 * j + 1 + 1 := by omega
      rw [e]
      simpa using this

theorem rampFile_eq : rampFile = rampHeader ++ encodeSamples ramp := by
  simp only [rampFile, rampHeader, wavFile, dataChunk, List.append_assoc, List.append_nil]

theorem length_rampFile : rampFile.length = 32044 := by
  have hlen : rampHeader.length = 44 := by decide
  rw [rampFile_eq, List.length_append, length_encodeSamples, hlen]
  unfold ramp
  rw [List.length_map, List.length_range]

theorem i16At_append (pre l : List Byte) (off : Nat) :
    i16At (pre ++ l) (pre.length + off) = i16At l off := by
  simp only [i16At, u16At, byteAt, List.getD_eq_getElem?_getD]
  rw [Nat.add_assoc, List.getElem?_append_right (by omega), List.getElem?_append_right (by omega)]
  simp

/-- End to end: the one-second 16000 Hz ramp file decodes to 16000 samples at
16000 Hz, the ramp itself. -/
theorem loadWAV_rampFile :
    loadWAV rampFile
      = .ok { sampleRate := 16000, sampleCount := 16000, floats_ := none, shorts_ := some ramp } := by
  have hfmt : fmtSizeOf rampFile = 16 := by decide
  have hdata : dataSizeOf rampFile = 32000 := by decide
  have hrate : declaredRate rampFile = 16000 := by decide
  have h0 : tagAt rampFile 0 tagRIFF := by decide
  have h8 : tagAt rampFile 8 tagWAVE := by decide
  have h12 : tagAt rampFile 12 tagFmt := by decide
  have h20 : u16At rampFile 20 = 1 := by decide
  have h22 : u16At rampFile 22 = 1 := by decide
  have h34 : u16At rampFile 34 = 16 := by decide
  have h36 : tagAt rampFile (20 + 16) tagData := by decide
  rw [loadWAV_eq, length_rampFile, hfmt, hdata, hrate, if_neg (by omega),
    if_neg (by simp [h0, h8]), if_neg (by simp [h12]), if_neg (by simp [h20]),
    if_neg (by simp [h34, h22]), if_neg (by omega), if_neg (by simp [h36]), if_neg (by omega),
    if_neg (by omega), if_neg (by omega), if_neg (by omega)]
  have hmap : (List.range 16000).map (fun i => i16At rampFile (28 + 16 + 2 * i)) = ramp := by
    have hlen : rampHeader.length = 28 + 16 := by decide
    unfold ramp
    apply List.map_congr_left
    intro i hi
    rw [List.mem_range] at hi
    rw [rampFile_eq, ← hlen, i16At_append]
    apply i16At_encodeSamples
    · show ((List.range 16000).map rampSample)[i]? = some (rampSample i)
      rw [List.getElem?_map, List.getElem?_range (by omega)]; rfl
    · unfold rampSample; omega
    · unfold rampSample; omega
  rw [hmap]

/-! ## The decoder: claims C1 to C7 -/

/-- C1 (as amended): a valid mono, 16-bit, integer-PCM WAVE file shorter than the
100-byte header object is refused with `Can not read WAV header`; one of at
least 100 bytes, with a format chunk of at most 72 declared bytes and an even
data size, is decoded into a buffer with `sampleCount = dataSize / 2` and the
declared sample rate. -/
theorem loadWAV_valid_file (file : List Byte) (hv : SpecValidWav file) :
    (file.length < 100 → loadWAV file = .error .cannotReadHeader) ∧
    (100 ≤ file.length → fmtSizeOf file ≤ 72 → dataSizeOf file % 2 = 0 →
      ∃ w, loadWAV file = .ok w ∧ w.sampleCount = dataSizeOf file / 2 ∧
        w.sampleRate = declaredRate file) := by
  obtain ⟨h0, h8, h12, hsz, hfmt, hch, hbits, hdata, hhdr, hbytes⟩ := hv
  rw [dataChunkOffset_eq file hsz] at hdata
  simp only [bytesAfterDataHeader, dataChunkOffset_eq file hsz] at hbytes
  constructor
  · intro hlen
    rw [loadWAV_eq, if_pos hlen]
  · intro hlen h72 heven
    refine ⟨{ sampleRate := declaredRate file, sampleCount := dataSizeOf file / 2,
              floats_ := none,
              shorts_ := if dataSizeOf file / 2 = 0 then none else
                some ((List.range (dataSizeOf file / 2)).map
                  (fun i => i16At file (28 + fmtSizeOf file + 2 * i))) }, ?_, rfl, rfl⟩
    rw [loadWAV_eq, if_neg (by omega), if_neg (by simp [h0, h8]), if_neg (by simp [h12]; omega),
      if_neg (by simp [hfmt]), if_neg (by simp [hbits, hch]), if_neg (by omega),
      if_neg (by simp [hdata]), if_neg (by omega), if_neg (by omega), if_neg (by omega)]

/-- Witness of `loadWAV_valid_file`: the 104-byte file is decoded. -/
theorem loadWAV_valid_file_witness :
    SpecValidWav smallFile ∧
      ∃ w, loadWAV smallFile = .ok w ∧ w.sampleCount = dataSizeOf smallFile / 2 ∧
        w.sampleRate = declaredRate smallFile :=
  ⟨by decide, (loadWAV_valid_file smallFile (by decide)).2 (by decide) (by decide) (by decide)⟩

/-- C1 (as stated) fails: the 48-byte file is a valid WAVE file of two samples and
`loadWAV` throws `Can not read WAV header`; valid files with a format chunk of
80 declared bytes or with an odd data size end in an access outside an object. -/
theorem loadWAV_valid_file_counterexample :
    (SpecValidWav shortFile ∧ shortFile.length = 48 ∧
      loadWAV shortFile = .error .cannotReadHeader ∧
      ¬ ∃ w, loadWAV shortFile = .ok w ∧ w.sampleCount = dataSizeOf shortFile / 2 ∧
        w.sampleRate = declaredRate shortFile) ∧
    (SpecValidWav file80 ∧ loadWAV file80 = .undefined) ∧
    (SpecValidWav oddFile ∧ loadWAV oddFile = .undefined) := by
  refine ⟨⟨by decide, by decide, by decide, ?_⟩, by decide, by decide⟩
  rintro ⟨w, hw, -⟩
  have h : loadWAV shortFile = .error .cannotReadHeader := by decide
  rw [h] at hw
  exact Outcome.noConfusion hw

/-- Acceptance implies validity on the runs that stay inside the header object
and the sample storage: when `loadWAV` returns a buffer the file
carries `RIFF` at 0, `WAVE` at 8, `fmt ` at 12, a format-chunk size of at least
16, format code 1, one channel, 16 bits, `data` at `20 + fmtSize`, and at least
`dataSize` bytes after the data-chunk header; and a tag test succeeds exactly
when all four bytes agree. -/
theorem loadWAV_ok_valid (file : List Byte) (w : Waveform) (h : loadWAV file = .ok w) :
    SpecValidWav file ∧ tagAt file (20 + fmtSizeOf file) tagData ∧
    28 + fmtSizeOf file + dataSizeOf file ≤ file.length ∧
    (∀ ID1 ID2 : List Byte, ID1.length = 4 → ID2.length = 4 →
      (isChunkIDEqual ID1 ID2 = true ↔ ID1 = ID2)) := by
  obtain ⟨hlen, h0, h8, h12, hsz, h72, hfmt, hch, hbits, hdata, hbytes, -, -⟩ :=
    loadWAV_ok_cases file w h
  refine ⟨⟨h0, h8, h12, hsz, hfmt, hch, hbits, ?_, ?_, ?_⟩, hdata, hbytes, ?_⟩
  · rw [dataChunkOffset_eq file hsz]; exact hdata
  · rw [dataChunkOffset_eq file hsz]; omega
  · simp only [bytesAfterDataHeader, dataChunkOffset_eq file hsz]; omega
  · intro ID1 ID2 h1 h2
    rw [isChunkIDEqual_iff ID1 ID2 (by omega) h2, List.take_of_length_le (by omega)]

/-- Witness of `loadWAV_ok_valid`: the 104-byte file is accepted. -/
theorem loadWAV_ok_valid_witness :
    loadWAV smallFile = .ok ⟨16000, 30, none, some (List.replicate 28 0 ++ [1, -1])⟩ ∧
    SpecValidWav smallFile ∧ tagAt smallFile (20 + fmtSizeOf smallFile) tagData ∧
    28 + fmtSizeOf smallFile + dataSizeOf smallFile ≤ smallFile.length ∧
    (∀ ID1 ID2 : List Byte, ID1.length = 4 → ID2.length = 4 →
      (isChunkIDEqual ID1 ID2 = true ↔ ID1 = ID2)) :=
  ⟨by decide, loadWAV_ok_valid smallFile ⟨16000, 30, none, some (List.replicate 28 0 ++ [1, -1])⟩ (by decide)⟩

/-- On the runs that stay inside the header object and the sample storage, the
failure `loadWAV` reports is the first violated condition of the
table, in the order truncated header, container tags, format chunk, encoding,
layout, data tag, truncated data; a later violation never masks an earlier one.
Whenever a condition is violated `loadWAV` reports it, unless the format chunk
declares more than 72 bytes and the lookup of the data chunk leaves the header
object.  So `RIFX` for `RIFF` gives the container error whatever follows, and
format code 3 with 8 bits per sample gives the encoding error. -/
theorem loadWAV_error_is_first_violation (file : List Byte) :
    (∀ k, loadWAV file = .error k → specFirstViolation file = some k) ∧
    (∀ k, specFirstViolation file = some k →
      loadWAV file = .error k ∨ (loadWAV file = .undefined ∧ 72 < fmtSizeOf file ∧
        (k = .corruptedData ∨ k = .prematureEOF))) ∧
    (100 ≤ file.length → tagAt file 0 tagRIFX → loadWAV file = .error .corruptedRIFF) ∧
    (100 ≤ file.length → tagAt file 0 tagRIFF → tagAt file 8 tagWAVE → tagAt file 12 tagFmt →
      16 ≤ fmtSizeOf file → u16At file 20 = 3 → u16At file 34 = 8 →
      loadWAV file = .error .onlyPCM) := by
  rw [loadWAV_eq, specFirstViolation_eq]
  by_cases c1 : file.length < 100
  · simp only [if_pos c1]
    refine ⟨?_, ?_, ?_, ?_⟩
    · intro k hk; rw [Outcome.error.inj hk]
    · intro k hk; rw [Option.some.inj hk]; exact Or.inl rfl
    · intro h; omega
    · intro h; omega
  simp only [if_neg c1]
  by_cases c2 : ¬ tagAt file 0 tagRIFF ∨ ¬ tagAt file 8 tagWAVE
  · simp only [if_pos c2]
    refine ⟨?_, ?_, ?_, ?_⟩
    · intro k hk; rw [Outcome.error.inj hk]
    · intro k hk; rw [Option.some.inj hk]; exact Or.inl rfl
    · intro _ _; trivial
    · intro _ h0 h8; exact absurd c2 (by simp [h0, h8])
  have hX : ¬ tagAt file 0 tagRIFX := by
    rw [not_or, not_not, not_not] at c2
    intro hx
    have h0 := c2.1
    rw [tagAt] at h0 hx
    rw [h0] at hx
    exact absurd hx (by decide)
  simp only [if_neg c2]
  by_cases c3 : ¬ tagAt file 12 tagFmt ∨ fmtSizeOf file < 16
  · simp only [if_pos c3]
    refine ⟨?_, ?_, ?_, ?_⟩
    · intro k hk; rw [Outcome.error.inj hk]
    · intro k hk; rw [Option.some.inj hk]; exact Or.inl rfl
    · intro _ hx; exact absurd hx hX
    · intro _ _ _ h12 hsz; exact absurd c3 (by simp [h12]; omega)
  simp only [if_neg c3]
  by_cases c4 : u16At file 20 ≠ 1
  · simp only [if_pos c4]
    refine ⟨?_, ?_, ?_, ?_⟩
    · intro k hk; rw [Outcome.error.inj hk]
    · intro k hk; rw [Option.some.inj hk]; exact Or.inl rfl
    · intro _ hx; exact absurd hx hX
    · intros; trivial
  simp only [if_neg c4]
  rw [not_not] at c4
  by_cases c5 : u16At file 34 ≠ 16 ∨ u16At file 22 ≠ 1
  · simp only [if_pos c5]
    refine ⟨?_, ?_, ?_, ?_⟩
    · intro k hk; rw [Outcome.error.inj hk]
    · intro k hk; rw [Option.some.inj hk]; exact Or.inl rfl
    · intro _ hx; exact absurd hx hX
    · intro _ _ _ _ _ h3; omega
  simp only [if_neg c5]
  refine ⟨?_, ?_, fun _ hx => absurd hx hX, fun _ _ _ _ _ h3 => by omega⟩
  · intro k hk
    by_cases c6 : 76 < fmtSizeOf file
    · rw [if_pos c6] at hk; exact Outcome.noConfusion hk
    rw [if_neg c6] at hk
    by_cases c7 : ¬ tagAt file (20 + fmtSizeOf file) tagData
    · rw [if_pos c7] at hk; rw [if_pos c7, Outcome.error.inj hk]
    rw [if_neg c7] at hk
    by_cases c8 : 72 < fmtSizeOf file
    · rw [if_pos c8] at hk; exact Outcome.noConfusion hk
    rw [if_neg c8] at hk
    by_cases c9 : file.length - (28 + fmtSizeOf file) < dataSizeOf file
    · rw [if_pos c9] at hk; rw [if_neg c7, if_pos c9, Outcome.error.inj hk]
    rw [if_neg c9] at hk
    by_cases c10 : dataSizeOf file % 2 = 1
    · rw [if_pos c10] at hk; exact Outcome.noConfusion hk
    · rw [if_neg c10] at hk; exact Outcome.noConfusion hk
  · intro k hk
    by_cases c7 : ¬ tagAt file (20 + fmtSizeOf file) tagData
    · rw [if_pos c7] at hk
      rw [← Option.some.inj hk]
      by_cases c6 : 76 < fmtSizeOf file
      · rw [if_pos c6]; exact Or.inr ⟨rfl, by omega, Or.inl rfl⟩
      · rw [if_neg c6, if_pos c7]; exact Or.inl rfl
    rw [if_neg c7] at hk
    by_cases c9 : file.length - (28 + fmtSizeOf file) < dataSizeOf file
    · rw [if_pos c9] at hk
      rw [← Option.some.inj hk]
      by_cases c6 : 76 < fmtSizeOf file
      · rw [if_pos c6]; exact Or.inr ⟨rfl, by omega, Or.inr rfl⟩
      rw [if_neg c6, if_neg c7]
      by_cases c8 : 72 < fmtSizeOf file
      · rw [if_pos c8]; exact Or.inr ⟨rfl, c8, Or.inr rfl⟩
      · rw [if_neg c8, if_pos c9]; exact Or.inl rfl
    · rw [if_neg c9] at hk; exact Option.noConfusion hk

/-- Witness of `loadWAV_error_is_first_violation`: on the file with the odd data
size a 101-byte cut reports the truncated data, and nothing earlier. -/
theorem loadWAV_error_is_first_violation_witness :
    loadWAV (oddFile.take 101) = .error .prematureEOF ∧
    specFirstViolation (oddFile.take 101) = some .prematureEOF :=
  ⟨by decide,
    (loadWAV_error_is_first_violation (oddFile.take 101)).1 .prematureEOF (by decide)⟩

/-- On the runs in which the header is read and tested inside the header
object: once it has passed every test, a declared data size larger than
the bytes the file holds from offset `28 + fmtSize` on makes `loadWAV` throw
`Premature end of file` and return no buffer; a declared size of at most that
many bytes never produces this error. -/
theorem loadWAV_truncated_data (file : List Byte) (h : HeaderInfo)
    (hh : readHeader file = .ok h) :
    h.fmtSize = fmtSizeOf file ∧ h.dataSize = dataSizeOf file ∧
    (file.length - (28 + h.fmtSize) < h.dataSize →
      loadWAV file = .error .prematureEOF ∧ ∀ w, loadWAV file ≠ .ok w) ∧
    (h.dataSize ≤ file.length - (28 + h.fmtSize) → loadWAV file ≠ .error .prematureEOF) := by
  have hl : loadWAV file = readSamples file h := by
    unfold loadWAV; rw [hh]
  rw [hl, readSamples_eq]
  rw [readHeader_eq] at hh
  have hinfo : h = { fmtSize := fmtSizeOf file, dataSize := dataSizeOf file,
                     sampleRate := declaredRate file } := by
    by_cases c1 : file.length < 100
    · rw [if_pos c1] at hh; exact Outcome.noConfusion hh
    rw [if_neg c1] at hh
    by_cases c2 : ¬ tagAt file 0 tagRIFF ∨ ¬ tagAt file 8 tagWAVE
    · rw [if_pos c2] at hh; exact Outcome.noConfusion hh
    rw [if_neg c2] at hh
    by_cases c3 : ¬ tagAt file 12 tagFmt ∨ fmtSizeOf file < 16
    · rw [if_pos c3] at hh; exact Outcome.noConfusion hh
    rw [if_neg c3] at hh
    by_cases c4 : u16At file 20 ≠ 1
    · rw [if_pos c4] at hh; exact Outcome.noConfusion hh
    rw [if_neg c4] at hh
    by_cases c5 : u16At file 34 ≠ 16 ∨ u16At file 22 ≠ 1
    · rw [if_pos c5] at hh; exact Outcome.noConfusion hh
    rw [if_neg c5] at hh
    by_cases c6 : 76 < fmtSizeOf file
    · rw [if_pos c6] at hh; exact Outcome.noConfusion hh
    rw [if_neg c6] at hh
    by_cases c7 : ¬ tagAt file (20 + fmtSizeOf file) tagData
    · rw [if_pos c7] at hh; exact Outcome.noConfusion hh
    rw [if_neg c7] at hh
    by_cases c8 : 72 < fmtSizeOf file
    · rw [if_pos c8] at hh; exact Outcome.noConfusion hh
    rw [if_neg c8] at hh
    exact (Outcome.ok.inj hh).symm
  refine ⟨by rw [hinfo], by rw [hinfo], ?_, ?_⟩
  · intro hlt
    rw [if_pos hlt]
    exact ⟨rfl, fun w hw => Outcome.noConfusion hw⟩
  · intro hle
    rw [if_neg (by omega)]
    by_cases c : h.dataSize % 2 = 1
    · rw [if_pos c]; exact fun hw => Outcome.noConfusion hw
    · rw [if_neg c]; exact fun hw => Outcome.noConfusion hw

/-- Witness of `loadWAV_truncated_data`: the header of the file with the odd data
size passes, and a cut at 101 bytes leaves 57 of the 61 declared bytes. -/
theorem loadWAV_truncated_data_witness :
    readHeader (oddFile.take 101) = .ok ⟨16, 61, 16000⟩ ∧
    (oddFile.take 101).length - (28 + 16) < 61 ∧
    loadWAV (oddFile.take 101) = .error .prematureEOF ∧
    ∀ w, loadWAV (oddFile.take 101) ≠ .ok w :=
  ⟨by decide, by decide,
    (loadWAV_truncated_data (oddFile.take 101) ⟨16, 61, 16000⟩ (by decide)).2.2.1 (by decide)⟩

/-- C5: in a buffer `loadWAV` returns, integer sample `i` is the signed 16-bit
little-endian number held in the two file bytes at offset
`36 + fmtSize - 16 + 8 + 2 * i`, for every `i < sampleCount`: the integer view is
the payload of the data chunk, in order. -/
theorem loadWAV_samples (file : List Byte) (w : Waveform) (h : loadWAV file = .ok w)
    (i : Nat) (hi : i < w.sampleCount) :
    ∃ shorts, w.shorts_ = some shorts ∧ shorts.length = w.sampleCount ∧
      shorts[i]? = some (i16At file (36 + fmtSizeOf file - 16 + 8 + 2 * i)) := by
  obtain ⟨-, -, -, -, hsz, -, -, -, -, -, -, -, hw⟩ := loadWAV_ok_cases file w h
  subst hw
  simp only at hi
  have hne : ¬ dataSizeOf file / 2 = 0 := by omega
  refine ⟨(List.range (dataSizeOf file / 2)).map
    (fun i => i16At file (28 + fmtSizeOf file + 2 * i)), ?_, ?_, ?_⟩
  · simp only [if_neg hne]
  · simp
  · rw [List.getElem?_map, List.getElem?_range hi]
    simp only [Option.map_some']
    congr 2
    omega

/-- Witness of `loadWAV_samples`: sample 29 of the 104-byte file is the number in
its bytes 102 and 103, which is -1; and the last sample of the 16000-sample ramp
file is the number in its last two bytes, which is 7999. -/
theorem loadWAV_samples_witness :
    (loadWAV smallFile = .ok ⟨16000, 30, none, some (List.replicate 28 0 ++ [1, -1])⟩ ∧
      i16At smallFile (36 + fmtSizeOf smallFile - 16 + 8 + 2 * 29) = -1 ∧
      ∃ shorts, (some (List.replicate 28 0 ++ [1, -1]) : Option (List Int)) = some shorts ∧
        shorts.length = 30 ∧
        shorts[29]? = some (i16At smallFile (36 + fmtSizeOf smallFile - 16 + 8 + 2 * 29))) ∧
    (loadWAV rampFile = .ok ⟨16000, 16000, none, some ramp⟩ ∧
      ∃ shorts, some ramp = some shorts ∧ shorts.length = 16000 ∧
        shorts[15999]? = some (i16At rampFile (36 + fmtSizeOf rampFile - 16 + 8 + 2 * 15999))) :=
  ⟨⟨by decide, by decide,
      loadWAV_samples smallFile ⟨16000, 30, none, some (List.replicate 28 0 ++ [1, -1])⟩
        (by decide) 29 (by decide)⟩,
    loadWAV_rampFile,
    loadWAV_samples rampFile ⟨16000, 16000, none, some ramp⟩ loadWAV_rampFile 15999 (by decide)⟩

/-- Where the data chunk is looked up while the lookup stays inside the header
object: for a format chunk of 16 to 72 declared bytes, in a file that passes the
tests before, the tag is tested at offset `20 + fmtSize` of the file and the data
size is the number in the four bytes behind it. -/
theorem loadWAV_data_chunk_lookup (file : List Byte) (hlen : 100 ≤ file.length)
    (h0 : tagAt file 0 tagRIFF) (h8 : tagAt file 8 tagWAVE) (h12 : tagAt file 12 tagFmt)
    (hfmt : u16At file 20 = 1) (hch : u16At file 22 = 1) (hbits : u16At file 34 = 16)
    (h16 : 16 ≤ fmtSizeOf file) (h72 : fmtSizeOf file ≤ 72) :
    (loadWAV file = .error .corruptedData ↔ ¬ tagAt file (20 + fmtSizeOf file) tagData) ∧
    (∀ w, loadWAV file = .ok w → w.sampleCount = u32At file (20 + fmtSizeOf file + 4) / 2) := by
  have hd : dataSizeOf file = u32At file (20 + fmtSizeOf file + 4) := by
    rw [dataSizeOf, dataChunkOffset_eq file h16]
  constructor
  · rw [loadWAV_eq, if_neg (by omega), if_neg (by simp [h0, h8]), if_neg (by simp [h12]; omega),
      if_neg (by simp [hfmt]), if_neg (by simp [hbits, hch]), if_neg (by omega)]
    by_cases c7 : ¬ tagAt file (20 + fmtSizeOf file) tagData
    · rw [if_pos c7]; exact ⟨fun _ => c7, fun _ => rfl⟩
    · rw [if_neg c7, if_neg (by omega)]
      constructor
      · intro h
        by_cases c9 : file.length - (28 + fmtSizeOf file) < dataSizeOf file
        · rw [if_pos c9] at h; exact absurd (Outcome.error.inj h) (by decide)
        · rw [if_neg c9] at h
          by_cases c10 : dataSizeOf file % 2 = 1
          · rw [if_pos c10] at h; exact Outcome.noConfusion h
          · rw [if_neg c10] at h; exact Outcome.noConfusion h
      · intro h; exact absurd h c7
  · intro w hw
    obtain ⟨-, -, -, -, -, -, -, -, -, -, -, -, e⟩ := loadWAV_ok_cases file w hw
    rw [e, ← hd]

/-- C6 (evaluation at the failing input): with 18 declared bytes the file that
carries `data` at offset 38 is accepted and the one that carries it at offset
36 is refused with `Corrupted data header`.  With 80 declared bytes, `file80`
carries `data` at offset `20 + 80` with four sample bytes behind the chunk
header, and `loadWAV` looks for the tag 100 bytes into its 100-byte header
object, outside of it, not in the file. -/
theorem loadWAV_fmt80_leaves_header :
    (loadWAV file18 = .ok ⟨16000, 30, none, some (List.replicate 28 0 ++ [1, -1])⟩ ∧
      loadWAV file18At36 = .error .corruptedData) ∧
    SpecValidWav file80 ∧ fmtSizeOf file80 = 80 ∧
    tagAt file80 (20 + fmtSizeOf file80) tagData ∧
    sizeofWavHeader < 20 + fmtSizeOf file80 + 4 ∧ loadWAV file80 = .undefined := by
  decide

/-- C7 (evaluation at the failing input): `file73` passes the container, format
chunk, encoding and layout tests and carries `data` at offset 93; the size field
of that chunk header ends at offset 101, one byte past the 100 bytes read into
the header object, and `loadWAV` reads it there. -/
theorem loadWAV_fmt73_leaves_header :
    SpecValidWav file73 ∧ fmtSizeOf file73 = 73 ∧ tagAt file73 (20 + fmtSizeOf file73) tagData ∧
    sizeofWavHeader < 20 + fmtSizeOf file73 + 8 ∧ loadWAV file73 = .undefined := by
  decide

/-! ## The header object and the memory behind it: claims C2 to C4 -/

/-- A byte inside the header object does not depend on what follows the
object. -/
theorem byteAt_append_left (l past : List Byte) (i : Nat) (h : i < l.length) :
    byteAt (l ++ past) i = byteAt l i := by
  simp only [byteAt, List.getD_eq_getElem?_getD, List.getElem?_append_left h]

theorem u32At_append_left (l past : List Byte) (off : Nat) (h : off + 4 ≤ l.length) :
    u32At (l ++ past) off = u32At l off := by
  simp only [u32At]
  rw [byteAt_append_left _ _ _ (by omega), byteAt_append_left _ _ _ (by omega),
    byteAt_append_left _ _ _ (by omega), byteAt_append_left _ _ _ (by omega)]

theorem isChunkIDEqual_append_left (l past tag : List Byte) (off : Nat)
    (h : off + 4 ≤ l.length) :
    isChunkIDEqual ((l ++ past).drop off) tag = isChunkIDEqual (l.drop off) tag := by
  have e : ∀ m : List Byte, u32At (m.drop off) 0
      = byteAt m off + 256 * byteAt m (off + 1) + 65536 * byteAt m (off + 2)
        + 16777216 * byteAt m (off + 3) := by
    intro m
    simp only [u32At, byteAt_drop]
    rfl
  simp only [isChunkIDEqual, e]
  rw [byteAt_append_left _ _ _ (by omega), byteAt_append_left _ _ _ (by omega),
    byteAt_append_left _ _ _ (by omega), byteAt_append_left _ _ _ (by omega)]

/-- Where `readHeader` stays inside the header object, the memory behind the
object plays no part: the build that reads past the object gets the same
result. -/
theorem readHeaderPast_eq_of_inside (past file : List Byte)
    (h : readHeader file ≠ .undefined) : readHeaderPast past file = readHeader file := by
  unfold readHeaderPast
  unfold readHeader at h ⊢
  simp only [] at h ⊢
  by_cases c1 : file.length < sizeofWavHeader
  · rw [if_pos c1, if_pos c1]
  rw [if_neg c1] at h
  rw [if_neg c1, if_neg c1]
  have hlen : (file.take sizeofWavHeader).length = 100 := by
    rw [List.length_take]; unfold sizeofWavHeader at c1 ⊢; omega
  generalize file.take sizeofWavHeader = hdr at h hlen ⊢
  by_cases c2 : (!isChunkIDEqual hdr tagRIFF || !isChunkIDEqual (hdr.drop 8) tagWAVE) = true
  · rw [if_pos c2, if_pos c2]
  rw [if_neg c2] at h
  rw [if_neg c2, if_neg c2]
  by_cases c3 : (!isChunkIDEqual (hdr.drop 12) tagFmt || decide (u32At hdr 16 < 16)) = true
  · rw [if_pos c3, if_pos c3]
  rw [if_neg c3] at h
  rw [if_neg c3, if_neg c3]
  by_cases c4 : (u16At hdr 20 != 1) = true
  · rw [if_pos c4, if_pos c4]
  rw [if_neg c4] at h
  rw [if_neg c4, if_neg c4]
  by_cases c5 : (u16At hdr 34 != 16 || u16At hdr 22 != 1) = true
  · rw [if_pos c5, if_pos c5]
  rw [if_neg c5] at h
  rw [if_neg c5, if_neg c5]
  have hmem : (hdr ++ past).length = 100 + past.length := by rw [List.length_append, hlen]
  rw [hmem]
  by_cases c6 : sizeofWavHeader < 20 + u32At hdr 16 + 4
  · rw [if_pos c6] at h; exact absurd rfl h
  rw [if_neg c6] at h
  have c6' : ¬ 100 + past.length < 20 + u32At hdr 16 + 4 := by
    unfold sizeofWavHeader at c6; omega
  rw [if_neg c6, if_neg c6',
    isChunkIDEqual_append_left hdr past tagData _ (by unfold sizeofWavHeader at c6; omega)]
  by_cases c7 : (!isChunkIDEqual (hdr.drop (20 + u32At hdr 16)) tagData) = true
  · rw [if_pos c7, if_pos c7]
  rw [if_neg c7] at h
  rw [if_neg c7, if_neg c7]
  by_cases c8 : sizeofWavHeader < 20 + u32At hdr 16 + 8
  · rw [if_pos c8] at h; exact absurd rfl h
  have c8' : ¬ 100 + past.length < 20 + u32At hdr 16 + 8 := by
    unfold sizeofWavHeader at c8; omega
  rw [if_neg c8, if_neg c8',
    u32At_append_left hdr past _ (by unfold sizeofWavHeader at c8; omega)]

/-- Where `loadWAV` stays inside the header object, the build that reads past
the object runs as `loadWAV`. -/
theorem loadWAVPast_eq_of_inside (past file : List Byte)
    (h : readHeader file ≠ .undefined) : loadWAVPast past file = loadWAV file := by
  unfold loadWAVPast loadWAV
  rw [readHeaderPast_eq_of_inside past file h]

/-- C2 (evaluation at the failing input): `file73Big` is `file73` with file byte
100 set to 1, so that its data chunk declares 16777220 bytes where four follow:
the file is not valid.  Its format chunk declares 73 bytes, every test of lines
120-133 passes inside the header object, and the data size is then read at
offsets 97..100 of the 100-byte object, one byte past its end; file byte 100 is
never read.  C++ gives the run no meaning, and a build that finds a zero byte
behind the object takes 4 for the size and returns the buffer of two samples. -/
theorem loadWAV_accepts_invalid_file :
    file73Big.take 100 = file73.take 100 ∧ file73Big.drop 101 = file73.drop 101 ∧
    fmtSizeOf file73Big = 73 ∧ tagAt file73Big (20 + fmtSizeOf file73Big) tagData ∧
    dataSizeOf file73Big = 16777220 ∧ bytesAfterDataHeader file73Big = 4 ∧
    ¬ SpecValidWav file73Big ∧
    sizeofWavHeader < 20 + fmtSizeOf file73Big + 8 ∧
    loadWAV file73Big = .undefined ∧
    loadWAVPast [0] file73Big = .ok ⟨16000, 2, none, some [1, -1]⟩ := by
  decide

/-- C3 (evaluation at the failing input): `file80` violates no row of the
failure table, and `loadWAV` tests the `data` tag 100 bytes into its 100-byte
header object; a build that finds zero bytes there throws
`Corrupted data header`, a failure without a violated condition.  And
`file73Big` violates the last row, truncated data, while a build that finds a
zero byte behind the object reports no failure at all. -/
theorem loadWAV_failure_without_violation :
    (SpecValidWav file80 ∧ specFirstViolation file80 = none ∧
      sizeofWavHeader < 20 + fmtSizeOf file80 + 4 ∧
      loadWAV file80 = .undefined ∧
      loadWAVPast (List.replicate 8 0) file80 = .error .corruptedData) ∧
    (specFirstViolation file73Big = some .prematureEOF ∧
      loadWAV file73Big = .undefined ∧
      loadWAVPast [0] file73Big = .ok ⟨16000, 2, none, some [1, -1]⟩) := by
  decide

/-- C4 (evaluation at the failing input): the header of `file73Big` passes every
tag test and every numeric test, and its data chunk declares 16777220 bytes
where four are present from offset `28 + fmtSize` on.  The size `loadWAV`
compares with the bytes present is not the declared one: its last byte is taken
behind the header object.  The run has no meaning in C++; a build that finds a
zero byte there returns a buffer of two samples, and only a build that finds the
byte of the file there throws `Premature end of file`. -/
theorem loadWAV_misses_truncated_data :
    tagAt file73Big 0 tagRIFF ∧ tagAt file73Big 8 tagWAVE ∧ tagAt file73Big 12 tagFmt ∧
    16 ≤ fmtSizeOf file73Big ∧ u16At file73Big 20 = 1 ∧ u16At file73Big 22 = 1 ∧
    u16At file73Big 34 = 16 ∧ tagAt file73Big (20 + fmtSizeOf file73Big) tagData ∧
    file73Big.length - (28 + fmtSizeOf file73Big) < dataSizeOf file73Big ∧
    loadWAV file73Big = .undefined ∧
    loadWAVPast [0] file73Big = .ok ⟨16000, 2, none, some [1, -1]⟩ ∧
    loadWAVPast [1] file73Big = .error .prematureEOF := by
  have hh : readHeaderPast [1] file73Big = .ok ⟨73, 16777220, 16000⟩ := by decide
  have h1 : loadWAVPast [1] file73Big = .error .prematureEOF := by
    unfold loadWAVPast
    rw [hh]
    simp only []
    rw [readSamples_eq, if_pos (by decide)]
  exact ⟨by decide, by decide, by decide, by decide, by decide, by decide, by decide, by decide,
    by decide, by decide, by decide, h1⟩

/-! ## Lemmas on the conversion loops and on binary32 rounding -/

/-- A loop that assigns `f cnt` to element `cnt` for `cnt = 0 .. n - 1` leaves the
array `f 0, .., f (n - 1)`, followed by what was behind. -/
theorem foldl_set_range {α : Type} (f : Nat → α) (n : Nat) (l : List α) (h : n ≤ l.length) :
    (List.range n).foldl (fun acc cnt => acc.set cnt (f cnt)) l
      = (List.range n).map f ++ l.drop n := by
  induction n with
  | zero => simp
  | succ k ih =>
    rw [List.range_succ, List.foldl_append, ih (by omega)]
    simp only [List.foldl_cons, List.foldl_nil, List.map_append, List.map_cons, List.map_nil]
    have hk : k < l.length := by omega
    rw [List.set_append_right _ _ (by simp)]
    simp only [List.length_map, List.length_range, Nat.sub_self]
    rw [List.drop_eq_getElem_cons hk]
    simp only [List.set_cons_zero, List.append_assoc, List.singleton_append]

theorem fillFloats_eq (shorts : List Int) (n : Nat) (floats : List F32) (h : floats.length = n) :
    Waveform.fillFloats shorts n floats
      = (List.range n).map (fun cnt => toFloatSample (shorts.getD cnt 0)) := by
  unfold Waveform.fillFloats
  rw [foldl_set_range (fun cnt => F32.div (F32.ofInt (shorts.getD cnt 0)) F32.c32767) n floats
    (by omega), List.drop_of_length_le (by omega), List.append_nil]
  rfl

theorem fillShorts_eq (floats : List F32) (n : Nat) (shorts : List Int) (h : shorts.length = n) :
    Waveform.fillShorts floats n shorts
      = (List.range n).map (fun cnt => toShortSample (floats.getD cnt ⟨0⟩)) := by
  unfold Waveform.fillShorts
  rw [foldl_set_range (fun cnt => F32.toInt16 (F32.mul (floats.getD cnt ⟨0⟩) F32.c32767)) n shorts
    (by omega), List.drop_of_length_le (by omega), List.append_nil]
  rfl

theorem getD_eq_of_getElem? {α : Type} (l : List α) (i : Nat) (d a : α) (h : l[i]? = some a) :
    l.getD i d = a := by
  simp [List.getD, h]

theorem ilog2Aux_spec (fuel n : Nat) (h : n ≤ fuel) (hn : 0 < n) :
    2 ^ ilog2Aux fuel n ≤ n ∧ n < 2 ^ (ilog2Aux fuel n + 1) := by
  induction fuel generalizing n with
  | zero => omega
  | succ f ih =>
    unfold ilog2Aux
    by_cases h2 : n < 2
    · rw [if_pos h2]; simp; omega
    · rw [if_neg h2]
      obtain ⟨h1, h3⟩ := ih (n / 2) (by omega) (by omega)
      rw [pow_succ] at h3 ⊢
      rw [pow_succ]
      omega

theorem ilog2_spec (n : Nat) (hn : 0 < n) : 2 ^ ilog2 n ≤ n ∧ n < 2 ^ (ilog2 n + 1) :=
  ilog2Aux_spec n n (le_refl n) hn

theorem ilog2_lt_of_lt (n k : Nat) (h : n < 2 ^ (k + 1)) : ilog2 n ≤ k := by
  by_cases hn : 0 < n
  · obtain ⟨h1, -⟩ := ilog2_spec n hn
    by_contra hc
    have : 2 ^ (k + 1) ≤ 2 ^ ilog2 n := Nat.pow_le_pow_right (by decide) (by omega)
    omega
  · have : n = 0 := by omega
    subst this
    simp [ilog2, ilog2Aux]

theorem ilog2_eq (n a : Nat) (h1 : 2 ^ a ≤ n) (h2 : n < 2 ^ (a + 1)) : ilog2 n = a := by
  have hn : 0 < n := lt_of_lt_of_le (Nat.pow_pos (by decide)) h1
  obtain ⟨h3, h4⟩ := ilog2_spec n hn
  have ha : ilog2 n ≤ a := ilog2_lt_of_lt n a h2
  by_contra hc
  have : 2 ^ (ilog2 n + 1) ≤ 2 ^ a := Nat.pow_le_pow_right (by decide) (by omega)
  omega

theorem roundHalfEven_err (n d : Nat) (hd : 0 < d) :
    2 * (roundHalfEven n d * d) ≤ 2 * n + d ∧ 2 * n ≤ 2 * (roundHalfEven n d * d) + d := by
  have hdm := Nat.div_add_mod n d
  have hr := Nat.mod_lt n hd
  have hc : d * (n / d) = n / d * d := Nat.mul_comm _ _
  have hs : (n / d + 1) * d = n / d * d + d := by ring
  unfold roundHalfEven
  split_ifs <;> (try rw [hs]) <;> omega

theorem roundHalfEven_eq_of_near (n d m : Nat) (h1 : 2 * n < 2 * (m * d) + d)
    (h2 : 2 * (m * d) < 2 * n + d) : roundHalfEven n d = m := by
  have hd : 0 < d := by
    rcases Nat.eq_zero_or_pos d with h | h
    · subst h; omega
    · exact h
  have hdm := Nat.div_add_mod n d
  have hr := Nat.mod_lt n hd
  have hc : d * (n / d) = n / d * d := Nat.mul_comm _ _
  have hq : n / d = m ∨ n / d + 1 = m := by
    rcases Nat.lt_trichotomy (n / d) m with h | h | h
    · right
      by_contra hne
      have : n / d + 2 ≤ m := by omega
      have : (n / d + 2) * d ≤ m * d := Nat.mul_le_mul_right d this
      have : (n / d + 2) * d = n / d * d + 2 * d := by ring
      omega
    · left; exact h
    · exfalso
      have : m + 1 ≤ n / d := h
      have : (m + 1) * d ≤ n / d * d := Nat.mul_le_mul_right d this
      have : (m + 1) * d = m * d + d := by ring
      omega
  have hmd : d * m = m * d := Nat.mul_comm _ _
  unfold roundHalfEven
  rcases hq with h | h
  · rw [if_pos (by rw [h] at hdm; omega)]; exact h
  · have hs : (n / d + 1) * d = n / d * d + d := by ring
    rw [← h] at h1 h2
    rw [if_neg (by omega), if_pos (by omega)]; exact h

/-- The rounding error of `F32.roundNat` is at most half the spacing. -/
theorem roundNat_err (n d : Nat) (hd : 0 < d) :
    2 * (F32.roundNat n d * d) ≤ 2 * n + d * 2 ^ F32.quantumExp (n / d) ∧
    2 * n ≤ 2 * (F32.roundNat n d * d) + d * 2 ^ F32.quantumExp (n / d) := by
  have hD : 0 < d * 2 ^ F32.quantumExp (n / d) := Nat.mul_pos hd (Nat.pow_pos (by decide))
  have h := roundHalfEven_err n _ hD
  have e : F32.roundNat n d * d
      = roundHalfEven n (d * 2 ^ F32.quantumExp (n / d)) * (d * 2 ^ F32.quantumExp (n / d)) := by
    unfold F32.roundNat; ring
  rw [e]; exact h

/-- A multiple `m * 2 ^ e` of the spacing that is nearer to `n / d` than half the
spacing is the rounded value. -/
theorem roundNat_eq_of_near (n d m e : Nat) (he : F32.quantumExp (n / d) = e)
    (h1 : 2 * n < 2 * (m * 2 ^ e * d) + d * 2 ^ e) (h2 : 2 * (m * 2 ^ e * d) < 2 * n + d * 2 ^ e) :
    F32.roundNat n d = m * 2 ^ e := by
  unfold F32.roundNat
  rw [he]
  have e1 : m * 2 ^ e * d = m * (d * 2 ^ e) := by ring
  rw [e1] at h1 h2
  rw [roundHalfEven_eq_of_near n (d * 2 ^ e) m h1 h2]

theorem quantumExp_le (q k : Nat) (h : q < 2 ^ (k + 24)) : F32.quantumExp q ≤ k := by
  have := ilog2_lt_of_lt q (k + 23) h
  unfold F32.quantumExp; omega

theorem quantumExp_eq (q k : Nat) (h1 : 2 ^ (k + 23) ≤ q) (h2 : q < 2 ^ (k + 24)) :
    F32.quantumExp q = k := by
  have := ilog2_eq q (k + 23) h1 h2
  unfold F32.quantumExp; omega

/-- A magnitude with at most 24 significant bits is a binary32 value: it rounds
to itself. -/
theorem roundNat_exact (m : Nat) (hm : m < 2 ^ 24) (k : Nat) :
    F32.roundNat (m * 2 ^ k) 1 = m * 2 ^ k := by
  have hq : F32.quantumExp (m * 2 ^ k / 1) ≤ k := by
    apply quantumExp_le
    rw [Nat.div_one, pow_add, Nat.mul_comm (2 ^ k)]
    exact Nat.mul_lt_mul_of_pos_right hm (Nat.pow_pos (by decide))
  obtain ⟨j, hj⟩ : ∃ j, k = F32.quantumExp (m * 2 ^ k / 1) + j := ⟨_, (Nat.add_sub_cancel' hq).symm⟩
  have e : m * 2 ^ k = m * 2 ^ j * 2 ^ F32.quantumExp (m * 2 ^ k / 1) := by
    conv_lhs => rw [hj]
    rw [pow_add]; ring
  have hp : 0 < 2 ^ F32.quantumExp (m * 2 ^ k / 1) := Nat.pow_pos (by decide)
  rw [roundNat_eq_of_near (m * 2 ^ k) 1 (m * 2 ^ j) _ rfl (by rw [← e]; omega) (by rw [← e]; omega)]
  exact e.symm

theorem roundHalfEven_le (n d m : Nat) (hd : 0 < d) (h : n ≤ m * d) : roundHalfEven n d ≤ m := by
  have hdm := Nat.div_add_mod n d
  have hr := Nat.mod_lt n hd
  have hc : d * (n / d) = n / d * d := Nat.mul_comm _ _
  have hq : n / d ≤ m := by
    have := Nat.mul_comm m d
    rw [Nat.div_le_iff_le_mul_add_pred hd]; omega
  rcases Nat.lt_or_ge (n / d) m with hlt | hge
  · unfold roundHalfEven; split_ifs <;> omega
  · have hqm : n / d = m := by omega
    rw [hqm] at hc hdm
    unfold roundHalfEven
    rw [if_pos (by omega)]; omega

/-- Rounding does not step over a binary32 value: what is at most `m0 * 2 ^ k`
with `m0 < 2 ^ 24` rounds to at most that. -/
theorem roundNat_le (n d m0 k : Nat) (hd : 0 < d) (hm : m0 < 2 ^ 24)
    (h : n ≤ m0 * 2 ^ k * d) : F32.roundNat n d ≤ m0 * 2 ^ k := by
  have hq : n / d ≤ m0 * 2 ^ k := by
    have := Nat.mul_comm (m0 * 2 ^ k) d
    rw [Nat.div_le_iff_le_mul_add_pred hd]; omega
  have he : F32.quantumExp (n / d) ≤ k := by
    apply quantumExp_le
    have : m0 * 2 ^ k < 2 ^ 24 * 2 ^ k := Nat.mul_lt_mul_of_pos_right hm (Nat.pow_pos (by decide))
    rw [pow_add, Nat.mul_comm (2 ^ k)]; omega
  obtain ⟨j, hj⟩ : ∃ j, k = F32.quantumExp (n / d) + j := ⟨_, (Nat.add_sub_cancel' he).symm⟩
  have e : m0 * 2 ^ k = m0 * 2 ^ j * 2 ^ F32.quantumExp (n / d) := by
    conv_lhs => rw [hj]
    rw [pow_add]; ring
  have hD : 0 < d * 2 ^ F32.quantumExp (n / d) := Nat.mul_pos hd (Nat.pow_pos (by decide))
  have hR := roundHalfEven_le n (d * 2 ^ F32.quantumExp (n / d)) (m0 * 2 ^ j) hD
    (by
      have : m0 * 2 ^ j * (d * 2 ^ F32.quantumExp (n / d))
          = m0 * 2 ^ j * 2 ^ F32.quantumExp (n / d) * d := by ring
      rw [this, ← e]; exact h)
  unfold F32.roundNat
  rw [e]
  exact Nat.mul_le_mul_right _ hR

theorem ofInt_units (s : Int) (h : s.natAbs < 2 ^ 24) : (F32.ofInt s).units = s * 2 ^ 149 := by
  have hr := roundNat_exact s.natAbs h 149
  have habs : (s * (F32.one : Int)).natAbs = s.natAbs * 2 ^ 149 := by
    rw [Int.natAbs_mul]; rfl
  have hone : (F32.one : Int) = 2 ^ 149 := by simp [F32.one]
  simp only [F32.ofInt, F32.round, habs, hr]
  by_cases hs : s < 0
  · have : s * (F32.one : Int) < 0 := by rw [hone]; omega
    rw [if_pos this]
    have hn : (s.natAbs : Int) = -s := by omega
    rw [Nat.cast_mul, hn]
    simp
  · have : ¬ s * (F32.one : Int) < 0 := by rw [hone]; omega
    rw [if_neg this]
    have hn : (s.natAbs : Int) = s := by omega
    rw [Nat.cast_mul, hn]
    simp

theorem c32767_units : F32.c32767.units = 32767 * 2 ^ 149 :=
  ofInt_units 32767 (by decide)

set_option exponentiation.threshold 512 in
theorem toFloatSample_units (s : Int) (h : s.natAbs < 2 ^ 24) :
    (toFloatSample s).units
      = if s < 0 then -(quotUnits s.natAbs : Int) else (quotUnits s.natAbs : Int) := by
  have hone : (F32.one : Int) = 2 ^ 149 := by simp [F32.one]
  have hc : ¬ ((32767 : Int) * 2 ^ 149 < 0) := by norm_num
  have hcabs : ((32767 : Int) * 2 ^ 149).natAbs = 32767 * 2 ^ 149 := by
    rw [Int.natAbs_mul, Int.natAbs_pow]; rfl
  have habs : (s * 2 ^ 149 * (2 : Int) ^ 149).natAbs = s.natAbs * 2 ^ 298 := by
    rw [Int.natAbs_mul, Int.natAbs_mul, Int.natAbs_pow, Nat.mul_assoc, ← pow_add]; rfl
  simp only [toFloatSample, F32.div, F32.round, ofInt_units s h, c32767_units, if_neg hc, hcabs,
    hone, habs, quotUnits]
  by_cases hs : s < 0
  · have : s * 2 ^ 149 * (2 : Int) ^ 149 < 0 := by
      have : (0 : Int) < 2 ^ 149 * 2 ^ 149 := by norm_num
      rw [Int.mul_assoc]; exact Int.mul_neg_of_neg_of_pos hs this
    rw [if_pos this, if_pos hs]
  · have : ¬ s * 2 ^ 149 * (2 : Int) ^ 149 < 0 := by
      have : (0 : Int) ≤ 2 ^ 149 * 2 ^ 149 := by norm_num
      rw [Int.mul_assoc, not_lt]; exact Int.mul_nonneg (by omega) this
    rw [if_neg this, if_neg hs]

theorem quotUnits_err (a : Nat) (h : a ≤ 32768) :
    2 ^ 24 * (quotUnits a * 32767) ≤ 2 ^ 24 * (a * 2 ^ 149) + 32767 * 2 ^ 149 ∧
    2 ^ 24 * (a * 2 ^ 149) ≤ 2 ^ 24 * (quotUnits a * 32767) + 32767 * 2 ^ 149 := by
  have hd : 0 < 32767 * 2 ^ 149 := by norm_num
  obtain ⟨h1, h2⟩ := roundNat_err (a * 2 ^ 298) (32767 * 2 ^ 149) hd
  have he : F32.quantumExp (a * 2 ^ 298 / (32767 * 2 ^ 149)) ≤ 126 := by
    apply quantumExp_le
    rw [Nat.div_lt_iff_lt_mul hd]
    norm_num
    omega
  have hp : 2 ^ F32.quantumExp (a * 2 ^ 298 / (32767 * 2 ^ 149)) ≤ 2 ^ 126 :=
    Nat.pow_le_pow_right (by decide) he
  have hm := Nat.mul_le_mul_left (32767 * 2 ^ 149) hp
  unfold quotUnits
  generalize F32.roundNat (a * 2 ^ 298) (32767 * 2 ^ 149) = r at *
  generalize 2 ^ F32.quantumExp (a * 2 ^ 298 / (32767 * 2 ^ 149)) = Q at *
  norm_num at h1 h2 hm ⊢
  omega

theorem toFloatSample_err (s : Int) (h1 : -32768 ≤ s) (h2 : s ≤ 32767) :
    |(toFloatSample s).toRat - (s : ℚ) / 32767| ≤ 1 / 2 ^ 24 := by
  have hs : s.natAbs < 2 ^ 24 := by norm_num; omega
  obtain ⟨e1, e2⟩ := quotUnits_err s.natAbs (by omega)
  have e1q : ((2 : ℚ) ^ 24 * ((quotUnits s.natAbs : ℚ) * 32767)
      ≤ 2 ^ 24 * ((s.natAbs : ℚ) * 2 ^ 149) + 32767 * 2 ^ 149) := by exact_mod_cast e1
  have e2q : ((2 : ℚ) ^ 24 * ((s.natAbs : ℚ) * 2 ^ 149)
      ≤ 2 ^ 24 * ((quotUnits s.natAbs : ℚ) * 32767) + 32767 * 2 ^ 149) := by exact_mod_cast e2
  rw [F32.toRat, toFloatSample_units s hs]
  rw [abs_le]
  by_cases hneg : s < 0
  · have hn : (s.natAbs : ℚ) = -(s : ℚ) := by
      have h0 : ((s.natAbs : ℤ) : ℚ) = (s.natAbs : ℚ) := Int.cast_natCast _
      rw [← h0, Int.ofNat_natAbs_of_nonpos (by omega), Int.cast_neg]
    rw [hn] at e1q e2q
    rw [if_pos hneg]
    push_cast
    constructor <;> linarith
  · have hn : (s.natAbs : ℚ) = (s : ℚ) := by
      have h0 : ((s.natAbs : ℤ) : ℚ) = (s.natAbs : ℚ) := Int.cast_natCast _
      rw [← h0, Int.natAbs_of_nonneg (by omega)]
    rw [hn] at e1q e2q
    rw [if_neg hneg]
    push_cast
    constructor <;> linarith

theorem mul_c32767_units (f : F32) :
    (F32.mul f F32.c32767).units
      = if f.units < 0 then -(prodUnits f.units.natAbs : Int)
        else (prodUnits f.units.natAbs : Int) := by
  have hcabs : ((32767 : Int) * 2 ^ 149).natAbs = 32767 * 2 ^ 149 := by
    rw [Int.natAbs_mul, Int.natAbs_pow]; rfl
  have habs : (f.units * (32767 * 2 ^ 149)).natAbs = f.units.natAbs * (32767 * 2 ^ 149) := by
    rw [Int.natAbs_mul, hcabs]
  have hpos : (0 : Int) < 32767 * 2 ^ 149 := by norm_num
  simp only [F32.mul, F32.round, c32767_units, habs, prodUnits, F32.one]
  by_cases hs : f.units < 0
  · rw [if_pos (Int.mul_neg_of_neg_of_pos hs hpos), if_pos hs]
  · rw [if_neg (by rw [not_lt]; exact Int.mul_nonneg (by omega) (le_of_lt hpos)), if_neg hs]

theorem prodUnits_le (a : Nat) (h : a ≤ 2 ^ 149) : prodUnits a ≤ 32767 * 2 ^ 149 := by
  apply roundNat_le _ _ 32767 149 (Nat.pow_pos (by decide)) (by decide)
  rw [Nat.mul_comm a]
  exact Nat.mul_le_mul_left _ h

theorem wrapInt16_id (t : Int) (h1 : -32768 ≤ t) (h2 : t ≤ 32767) : wrapInt16 t = t := by
  unfold wrapInt16; omega

/-- For a `float` in `[-1, 1]` the conversion of `f * 32767` to `int16_t` is in
range: it is the integer part of the product, between -32767 and 32767. -/
theorem toShortSample_eq_trunc (f : F32) (h : f.units.natAbs ≤ 2 ^ 149) :
    toShortSample f = (F32.mul f F32.c32767).trunc ∧
    -32767 ≤ toShortSample f ∧ toShortSample f ≤ 32767 := by
  have hb := prodUnits_le f.units.natAbs h
  have hu : (F32.mul f F32.c32767).units.natAbs ≤ 32767 * 2 ^ 149 := by
    rw [mul_c32767_units]
    split_ifs
    · rw [Int.natAbs_neg, Int.natAbs_ofNat]; exact hb
    · rw [Int.natAbs_ofNat]; exact hb
  have ht : (F32.mul f F32.c32767).trunc.natAbs ≤ 32767 := by
    unfold F32.trunc
    rw [Int.natAbs_tdiv]
    have : (F32.one : Int).natAbs = 2 ^ 149 := rfl
    rw [this]
    show (F32.mul f F32.c32767).units.natAbs / 2 ^ 149 ≤ 32767
    rw [Nat.div_le_iff_le_mul_add_pred (Nat.pow_pos (by decide))]
    omega
  have hw : toShortSample f = (F32.mul f F32.c32767).trunc := by
    unfold toShortSample F32.toInt16
    exact wrapInt16_id _ (by omega) (by omega)
  rw [hw]
  exact ⟨rfl, by omega, by omega⟩

/-- The function `F32.trunc` is truncation toward zero: the floor of a non-negative value, the
ceiling of a negative one. -/
theorem trunc_eq (x : F32) :
    x.trunc = if 0 ≤ x.toRat then ⌊x.toRat⌋ else ⌈x.toRat⌉ := by
  have hU : ((2 ^ 149 : ℕ) : ℚ) = (2 : ℚ) ^ 149 := by norm_num
  have hUz : (F32.one : ℤ) = ((2 ^ 149 : ℕ) : ℤ) := rfl
  have hpos : (0 : ℚ) < 2 ^ 149 := by positivity
  unfold F32.trunc F32.toRat
  by_cases h : 0 ≤ x.units
  · have : (0 : ℚ) ≤ (x.units : ℚ) / 2 ^ 149 := div_nonneg (by exact_mod_cast h) (le_of_lt hpos)
    rw [if_pos this, ← hU, Rat.floor_intCast_div_natCast, hUz]
    exact Int.tdiv_eq_ediv h (by positivity)
  · have hlt : x.units < 0 := by omega
    have : ¬ (0 : ℚ) ≤ (x.units : ℚ) / 2 ^ 149 := by
      rw [not_le]; exact div_neg_of_neg_of_pos (by exact_mod_cast hlt) hpos
    rw [if_neg this]
    have e : (x.units : ℚ) / 2 ^ 149 = -(((-x.units : ℤ) : ℚ) / ((2 ^ 149 : ℕ) : ℚ)) := by
      rw [hU]; push_cast; ring
    rw [e, Int.ceil_neg, Rat.floor_intCast_div_natCast, hUz]
    have : x.units = -(-x.units) := by omega
    conv_lhs => rw [this, Int.neg_tdiv]
    rw [Int.tdiv_eq_ediv (by omega) (by positivity)]

theorem natAbs_units_le_of_abs_toRat_le_one (f : F32) (h : |f.toRat| ≤ 1) :
    f.units.natAbs ≤ 2 ^ 149 := by
  have hpos : (0 : ℚ) < 2 ^ 149 := by positivity
  rw [F32.toRat, abs_le] at h
  obtain ⟨h1, h2⟩ := h
  rw [le_div_iff₀ hpos] at h1
  rw [div_le_iff₀ hpos] at h2
  have h1z : -(2 ^ 149 : ℤ) ≤ f.units := by
    have : ((-(2 ^ 149 : ℤ) : ℤ) : ℚ) ≤ (f.units : ℚ) := by push_cast; linarith
    exact_mod_cast this
  have h2z : f.units ≤ (2 ^ 149 : ℤ) := by
    have : (f.units : ℚ) ≤ (((2 ^ 149 : ℤ) : ℤ) : ℚ) := by push_cast; linarith
    exact_mod_cast this
  omega

theorem f09_units : f09 = ⟨15099955 * 2 ^ 110⟩ := by decide!

theorem fm09_units : fm09 = ⟨-(15099955 * 2 ^ 110)⟩ := by decide!

theorem f1007_units : f1007 = ⟨13199353 * 2 ^ 117⟩ := by decide!

set_option exponentiation.threshold 512 in
/-- Away from the powers of two and from 32767: the quotient by `32767.0f`
multiplied by `32767.0f` is the sample again, exactly. -/
theorem prodUnits_quotUnits_general (a k : Nat) (hk : k ≤ 14) (h1 : 2 ^ k + 1 ≤ a)
    (h2 : a < 2 ^ (k + 1)) (h3 : a ≤ 32766) : prodUnits (quotUnits a) = a * 2 ^ 149 := by
  have hK : 2 ^ k = 16384 ∨ 2 ^ k ≤ 8192 := by
    rcases Nat.lt_or_ge k 14 with h | h
    · right
      have : 2 ^ k ≤ 2 ^ 13 := Nat.pow_le_pow_right (by decide) (by omega)
      simpa using this
    · left
      have : k = 14 := by omega
      rw [this]; norm_num
  have hd : 0 < 32767 * 2 ^ 149 := by norm_num
  have hU : 0 < 2 ^ 149 := by norm_num
  have p1 : 2 ^ (111 + k + 23) = 2 ^ 134 * 2 ^ k := by
    rw [show 111 + k + 23 = 134 + k by omega, pow_add]
  have p2 : 2 ^ (111 + k + 24) = 2 ^ 135 * 2 ^ k := by
    rw [show 111 + k + 24 = 135 + k by omega, pow_add]
  have p3 : 2 ^ (111 + k) = 2 ^ 111 * 2 ^ k := pow_add 2 111 k
  have p4 : 2 ^ (126 + k + 23) = 2 ^ 149 * 2 ^ k := by
    rw [show 126 + k + 23 = 149 + k by omega, pow_add]
  have p5 : 2 ^ (126 + k + 24) = 2 ^ 150 * 2 ^ k := by
    rw [show 126 + k + 24 = 150 + k by omega, pow_add]
  have p6 : 2 ^ (126 + k) = 2 ^ 126 * 2 ^ k := pow_add 2 126 k
  have p7 : a * 2 ^ (23 - k) * 2 ^ (126 + k) = a * 2 ^ 149 := by
    rw [Nat.mul_assoc, (pow_add 2 (23 - k) (126 + k)).symm,
      show 23 - k + (126 + k) = 149 by omega]
  have p8 : 2 ^ (k + 1) = 2 * 2 ^ k := by rw [pow_succ, Nat.mul_comm]
  rw [p8] at h2
  have hq1 : F32.quantumExp (a * 2 ^ 298 / (32767 * 2 ^ 149)) = 111 + k := by
    apply quantumExp_eq
    · rw [Nat.le_div_iff_mul_le hd, p1]
      generalize 2 ^ k = K at *
      norm_num
      omega
    · rw [Nat.div_lt_iff_lt_mul hd, p2]
      generalize 2 ^ k = K at *
      norm_num
      omega
  obtain ⟨e1, e2⟩ := roundNat_err (a * 2 ^ 298) (32767 * 2 ^ 149) hd
  rw [hq1, p3] at e1 e2
  have hy : quotUnits a = F32.roundNat (a * 2 ^ 298) (32767 * 2 ^ 149) := rfl
  rw [← hy] at e1 e2
  have hq2 : quotUnits a * (32767 * 2 ^ 149) / 2 ^ 149 = quotUnits a * 32767 := by
    rw [← Nat.mul_assoc, Nat.mul_div_cancel _ hU]
  have hqe2 : F32.quantumExp (quotUnits a * (32767 * 2 ^ 149) / 2 ^ 149) = 126 + k := by
    rw [hq2]
    apply quantumExp_eq
    · rw [p4]
      generalize 2 ^ k = K at *
      generalize quotUnits a = y at *
      norm_num at e1 e2 ⊢
      omega
    · rw [p5]
      generalize 2 ^ k = K at *
      generalize quotUnits a = y at *
      norm_num at e1 e2 ⊢
      omega
  unfold prodUnits
  rw [roundNat_eq_of_near (quotUnits a * (32767 * 2 ^ 149)) (2 ^ 149) (a * 2 ^ (23 - k)) (126 + k)
    hqe2 ?_ ?_, p7]
  · rw [p7, p6]
    generalize 2 ^ k = K at *
    generalize quotUnits a = y at *
    norm_num at e1 e2 ⊢
    omega
  · rw [p7, p6]
    generalize 2 ^ k = K at *
    generalize quotUnits a = y at *
    norm_num at e1 e2 ⊢
    omega

/-- The quotient by `32767.0f` multiplied by `32767.0f` is the sample again,
exactly, for every magnitude an `int16_t` has. -/
theorem prodUnits_quotUnits (a : Nat) (ha : a ≤ 32768) :
    prodUnits (quotUnits a) = a * 2 ^ 149 := by
  rcases Nat.eq_zero_or_pos a with h0 | hpos
  · subst h0; decide!
  obtain ⟨hk1, hk2⟩ := ilog2_spec a hpos
  have hk : ilog2 a ≤ 15 := ilog2_lt_of_lt a 15 (by norm_num; omega)
  generalize ilog2 a = k at *
  by_cases hp : a = 2 ^ k
  · subst hp
    interval_cases k <;> decide!
  · have h1 : 2 ^ k + 1 ≤ a := by omega
    have hk14 : k ≤ 14 := by
      by_contra hc
      have : k = 15 := by omega
      subst this
      norm_num at hk1
      omega
    by_cases h7 : a = 32767
    · subst h7; decide!
    · have : a ≠ 32768 := by
        intro h8
        subst h8
        have : 2 ^ k ≤ 2 ^ 14 := Nat.pow_le_pow_right (by decide) hk14
        rw [pow_succ] at hk2
        norm_num at this
        omega
      exact prodUnits_quotUnits_general a k hk14 h1 hk2 (by omega)

/-- An `int16_t` converted by `s / 32767.0f` and back by `int16_t(f * 32767)` is
unchanged. -/
theorem toShortSample_toFloatSample (s : Int) (h1 : -32768 ≤ s) (h2 : s ≤ 32767) :
    toShortSample (toFloatSample s) = s := by
  have hs : s.natAbs < 2 ^ 24 := by norm_num; omega
  have hp := prodUnits_quotUnits s.natAbs (by omega)
  have hu := toFloatSample_units s hs
  have hm := mul_c32767_units (toFloatSample s)
  have hprod : (F32.mul (toFloatSample s) F32.c32767).units = s * 2 ^ 149 := by
    by_cases hneg : s < 0
    · rw [if_pos hneg] at hu
      have hy : quotUnits s.natAbs ≠ 0 := by
        intro h0
        rw [h0] at hp
        have hz : prodUnits 0 = 0 := by decide!
        rw [hz] at hp
        have : 0 < s.natAbs * 2 ^ 149 := Nat.mul_pos (by omega) (by norm_num)
        omega
      have hlt : (toFloatSample s).units < 0 := by rw [hu]; omega
      have habs : (toFloatSample s).units.natAbs = quotUnits s.natAbs := by
        rw [hu, Int.natAbs_neg, Int.natAbs_ofNat]
      rw [hm, if_pos hlt, habs, hp]
      have : (s.natAbs : Int) = -s := by omega
      rw [Nat.cast_mul, this]
      simp
    · rw [if_neg hneg] at hu
      have hge : ¬ (toFloatSample s).units < 0 := by rw [hu]; omega
      have habs : (toFloatSample s).units.natAbs = quotUnits s.natAbs := by
        rw [hu, Int.natAbs_ofNat]
      rw [hm, if_neg hge, habs, hp]
      have : (s.natAbs : Int) = s := by omega
      rw [Nat.cast_mul, this]
      simp
  have ht : (F32.mul (toFloatSample s) F32.c32767).trunc = s := by
    unfold F32.trunc
    rw [hprod]
    have : (F32.one : Int) = 2 ^ 149 := by simp [F32.one]
    rw [this]
    exact Int.mul_tdiv_cancel s (by norm_num)
  unfold toShortSample F32.toInt16
  rw [ht]
  exact wrapInt16_id s h1 (by omega)

/-! ## The lazy accessors: claims C8 to C10 -/

/-- C8: on a buffer of `sampleCount > 0` samples whose integer representation is
populated and whose float representation is not, `floatData()` allocates and
returns `sampleCount` floats; float `i` is integer sample `i` divided by
`32767.0f`, the binary32 value nearest to the quotient (within `2 ^ (-24)` of
it), and 32767, -32767 and 0 give exactly 1, -1 and 0. -/
theorem floatData_divides (junk : Nat → F32) (w : Waveform) (shorts : List Int)
    (hn : 0 < w.sampleCount) (hs : w.shorts_ = some shorts)
    (hlen : shorts.length = w.sampleCount) (hf : w.floats_ = none)
    (hrange : ∀ s ∈ shorts, -32768 ≤ s ∧ s ≤ 32767) :
    ∃ floats, w.floatData junk = ({ w with floats_ := some floats }, some floats) ∧
      floats.length = w.sampleCount ∧
      ∀ i, i < w.sampleCount → ∃ s f, shorts[i]? = some s ∧ floats[i]? = some f ∧
        f = F32.div (F32.ofInt s) F32.c32767 ∧
        |f.toRat - (s : ℚ) / 32767| ≤ 1 / 2 ^ 24 ∧
        (s = 32767 → f.toRat = 1) ∧ (s = -32767 → f.toRat = -1) ∧ (s = 0 → f.toRat = 0) := by
  refine ⟨(List.range w.sampleCount).map (fun cnt => toFloatSample (shorts.getD cnt 0)), ?_, ?_, ?_⟩
  · have h0 : ¬ (w.sampleCount = 0 ∨ w.floats_.isSome = true) := by
      rw [hf]; simp; omega
    unfold Waveform.floatData
    rw [if_neg h0, hs]
    simp only []
    rw [fillFloats_eq shorts w.sampleCount _ (by simp)]
  · simp
  · intro i hi
    have hi' : i < shorts.length := by omega
    have hsi : shorts[i]? = some shorts[i] := List.getElem?_eq_getElem hi'
    refine ⟨shorts[i], toFloatSample shorts[i], hsi, ?_, rfl, ?_, ?_, ?_, ?_⟩
    · rw [List.getElem?_map, List.getElem?_range hi]
      simp only [Option.map_some']
      rw [getD_eq_of_getElem? shorts i 0 _ hsi]
    · obtain ⟨h1, h2⟩ := hrange shorts[i] (List.getElem_mem hi')
      exact toFloatSample_err _ h1 h2
    · intro h
      rw [h]
      have : toFloatSample 32767 = ⟨2 ^ 149⟩ := by decide!
      rw [this]; norm_num [F32.toRat]
    · intro h
      rw [h]
      have : toFloatSample (-32767) = ⟨-(2 ^ 149)⟩ := by decide!
      rw [this]; norm_num [F32.toRat]
    · intro h
      rw [h]
      have : toFloatSample 0 = ⟨0⟩ := by decide!
      rw [this]; norm_num [F32.toRat]

/-- Witness of `floatData_divides`: the buffer decoded from `boundaryFile`, thirty
samples ending in 32767, -32767, 0. -/
theorem floatData_divides_witness :
    loadWAV boundaryFile = .ok boundaryBuffer ∧
    ∃ floats, boundaryBuffer.floatData (fun _ => ⟨0⟩)
        = ({ boundaryBuffer with floats_ := some floats }, some floats) ∧
      floats.length = boundaryBuffer.sampleCount ∧
      ∀ i, i < boundaryBuffer.sampleCount → ∃ s f,
        (List.replicate 27 (0 : Int) ++ [32767, -32767, 0])[i]? = some s ∧
        floats[i]? = some f ∧ f = F32.div (F32.ofInt s) F32.c32767 ∧
        |f.toRat - (s : ℚ) / 32767| ≤ 1 / 2 ^ 24 ∧
        (s = 32767 → f.toRat = 1) ∧ (s = -32767 → f.toRat = -1) ∧ (s = 0 → f.toRat = 0) :=
  ⟨by decide,
    floatData_divides (fun _ => ⟨0⟩) boundaryBuffer (List.replicate 27 0 ++ [32767, -32767, 0])
      (by decide) rfl (by decide) rfl (by decide)⟩

/-- C9: on a buffer of `sampleCount > 0` samples whose float representation is
populated with values in `[-1, 1]` and whose integer representation is not
materialized, `shortData()` allocates and returns `sampleCount` integers;
integer `i` is `int16_t(float_i * 32767)`: the binary32 product with its
fraction discarded (truncation toward zero, not rounding to the nearest
integer), that is its floor when it is not negative and its ceiling when it is
negative. -/
theorem shortData_truncates (junk : Nat → Int) (w : Waveform) (floats : List F32)
    (hn : 0 < w.sampleCount) (hf : w.floats_ = some floats)
    (hlen : floats.length = w.sampleCount) (hs : w.shorts_ = none)
    (hrange : ∀ f ∈ floats, |f.toRat| ≤ 1) :
    ∃ shorts, w.shortData junk = ({ w with shorts_ := some shorts }, some shorts) ∧
      shorts.length = w.sampleCount ∧
      ∀ i, i < w.sampleCount → ∃ f t, floats[i]? = some f ∧ shorts[i]? = some t ∧
        t = F32.toInt16 (F32.mul f F32.c32767) ∧
        t = (if 0 ≤ (F32.mul f F32.c32767).toRat then ⌊(F32.mul f F32.c32767).toRat⌋
             else ⌈(F32.mul f F32.c32767).toRat⌉) ∧
        -32767 ≤ t ∧ t ≤ 32767 := by
  refine ⟨(List.range w.sampleCount).map (fun cnt => toShortSample (floats.getD cnt ⟨0⟩)),
    ?_, ?_, ?_⟩
  · have h0 : ¬ (w.sampleCount = 0 ∨ w.shorts_.isSome = true) := by
      rw [hs]; simp; omega
    unfold Waveform.shortData
    rw [if_neg h0, hf]
    simp only []
    rw [fillShorts_eq floats w.sampleCount _ (by simp)]
  · simp
  · intro i hi
    have hi' : i < floats.length := by omega
    have hfi : floats[i]? = some floats[i] := List.getElem?_eq_getElem hi'
    have hr := natAbs_units_le_of_abs_toRat_le_one _ (hrange floats[i] (List.getElem_mem hi'))
    obtain ⟨ht, hlo, hhi⟩ := toShortSample_eq_trunc floats[i] hr
    refine ⟨floats[i], toShortSample floats[i], hfi, ?_, rfl, ?_, hlo, hhi⟩
    · rw [List.getElem?_map, List.getElem?_range hi]
      simp only [Option.map_some']
      rw [getD_eq_of_getElem? floats i ⟨0⟩ _ hfi]
    · rw [ht]; exact trunc_eq _

/-- Witness of `shortData_truncates`: three floats whose binary32 products with
32767 are 0.9000000954, -0.9000000954 and 100.7000275 give 0, 0 and 100, where
rounding to nearest would give 1, -1 and 101. -/
theorem shortData_truncates_witness :
    floatOnlyBuffer.shortData (fun _ => 0)
      = ({ floatOnlyBuffer with shorts_ := some [0, 0, 100] }, some [0, 0, 100]) ∧
    (F32.mul f09 F32.c32767).toRat = 7549747 / 8388608 ∧
    (F32.mul fm09 F32.c32767).toRat = -7549747 / 8388608 ∧
    (F32.mul f1007 F32.c32767).toRat = 6599475 / 65536 ∧
    ∃ shorts, floatOnlyBuffer.shortData (fun _ => 0)
        = ({ floatOnlyBuffer with shorts_ := some shorts }, some shorts) ∧
      shorts.length = floatOnlyBuffer.sampleCount ∧
      ∀ i, i < floatOnlyBuffer.sampleCount → ∃ f t,
        [f09, fm09, f1007][i]? = some f ∧ shorts[i]? = some t ∧
        t = F32.toInt16 (F32.mul f F32.c32767) ∧
        t = (if 0 ≤ (F32.mul f F32.c32767).toRat then ⌊(F32.mul f F32.c32767).toRat⌋
             else ⌈(F32.mul f F32.c32767).toRat⌉) ∧
        -32767 ≤ t ∧ t ≤ 32767 := by
  have p1 : F32.mul f09 F32.c32767 = ⟨7549747 * 2 ^ 126⟩ := by decide!
  have p2 : F32.mul fm09 F32.c32767 = ⟨-(7549747 * 2 ^ 126)⟩ := by decide!
  have p3 : F32.mul f1007 F32.c32767 = ⟨6599475 * 2 ^ 133⟩ := by decide!
  refine ⟨by decide!, ?_, ?_, ?_,
    shortData_truncates (fun _ => 0) floatOnlyBuffer [f09, fm09, f1007] (by decide) rfl rfl rfl ?_⟩
  · rw [p1]; norm_num [F32.toRat]
  · rw [p2]; norm_num [F32.toRat]
  · rw [p3]; norm_num [F32.toRat]
  · intro f hf
    simp only [List.mem_cons, List.mem_singleton, List.not_mem_nil, or_false] at hf
    rcases hf with rfl | rfl | rfl
    · rw [f09_units]; norm_num [F32.toRat, abs_le]
    · rw [fm09_units]; norm_num [F32.toRat, abs_le]
    · rw [f1007_units]; norm_num [F32.toRat, abs_le]

/-- C10: on a buffer just returned by `loadWAV`, `floatData()` followed by
`shortData()` returns the integer samples that were decoded, at every index:
the integer array is still held, so `shortData()` hands it back.  The same
numbers also come out of the conversion itself: `int16_t((s / 32767.0f) * 32767)`
is `s` for every sample, so the loop of `shortData` run on the floats of
`floatData` rebuilds the decoded array. -/
theorem floatData_shortData_roundtrip (file : List Byte) (w : Waveform)
    (h : loadWAV file = .ok w) (jf : Nat → F32) (js : Nat → Int) :
    ((w.floatData jf).1.shortData js).2 = w.shorts_ ∧
    ((w.floatData jf).1.shortData js).1.shorts_ = w.shorts_ ∧
    (∀ i, i < w.sampleCount → ∃ shorts t,
      ((w.floatData jf).1.shortData js).2 = some shorts ∧ shorts[i]? = some t ∧
      t = i16At file (28 + fmtSizeOf file + 2 * i) ∧ toShortSample (toFloatSample t) = t) ∧
    (∀ floats shorts, (w.floatData jf).2 = some floats → w.shorts_ = some shorts →
      Waveform.fillShorts floats w.sampleCount ((List.range w.sampleCount).map js) = shorts) := by
  obtain ⟨-, -, -, -, -, -, -, -, -, -, -, -, hw⟩ := loadWAV_ok_cases file w h
  by_cases hn : dataSizeOf file / 2 = 0
  · rw [if_pos hn] at hw
    subst hw
    simp only [Waveform.floatData, Waveform.shortData, hn, true_or, if_true]
    refine ⟨trivial, trivial, ?_, ?_⟩
    · intro i hi; omega
    · intro floats shorts _ hs; exact Option.noConfusion hs
  · rw [if_neg hn] at hw
    subst hw
    have hfl : Waveform.fillFloats
        ((List.range (dataSizeOf file / 2)).map (fun i => i16At file (28 + fmtSizeOf file + 2 * i)))
        (dataSizeOf file / 2) ((List.range (dataSizeOf file / 2)).map jf)
        = (List.range (dataSizeOf file / 2)).map
            (fun i => toFloatSample (i16At file (28 + fmtSizeOf file + 2 * i))) := by
      rw [fillFloats_eq _ _ _ (by simp)]
      apply List.map_congr_left
      intro i hi
      rw [List.mem_range] at hi
      rw [getD_eq_of_getElem? _ i 0 (i16At file (28 + fmtSizeOf file + 2 * i))
        (by rw [List.getElem?_map, List.getElem?_range hi]; rfl)]
    simp only [Waveform.floatData, Waveform.shortData, hn, Option.isSome_none, Option.isSome_some,
      Bool.false_eq_true, or_self, or_true, if_true, if_false, hfl]
    refine ⟨trivial, trivial, ?_, ?_⟩
    · intro i hi
      refine ⟨_, i16At file (28 + fmtSizeOf file + 2 * i), rfl, ?_, rfl, ?_⟩
      · rw [List.getElem?_map, List.getElem?_range hi]; rfl
      · obtain ⟨r1, r2⟩ := i16At_range file (28 + fmtSizeOf file + 2 * i)
        exact toShortSample_toFloatSample _ r1 r2
    · intro floats shorts hfs hs
      rw [← Option.some.inj hfs, ← Option.some.inj hs, fillShorts_eq _ _ _ (by simp)]
      apply List.map_congr_left
      intro i hi
      rw [List.mem_range] at hi
      rw [getD_eq_of_getElem? _ i ⟨0⟩ (toFloatSample (i16At file (28 + fmtSizeOf file + 2 * i)))
        (by rw [List.getElem?_map, List.getElem?_range hi]; rfl)]
      obtain ⟨r1, r2⟩ := i16At_range file (28 + fmtSizeOf file + 2 * i)
      exact toShortSample_toFloatSample _ r1 r2

/-- Witness of `floatData_shortData_roundtrip`: the buffer decoded from
`boundaryFile`, with the samples 32767, -32767 and 0 at indices 27, 28, 29. -/
theorem floatData_shortData_roundtrip_witness :
    loadWAV boundaryFile = .ok boundaryBuffer ∧
    ((boundaryBuffer.floatData (fun _ => ⟨0⟩)).1.shortData (fun _ => 0)).2
      = some (List.replicate 27 0 ++ [32767, -32767, 0]) ∧
    toShortSample (toFloatSample 32767) = 32767 ∧
    toShortSample (toFloatSample (-32767)) = -32767 ∧
    toShortSample (toFloatSample 0) = 0 :=
  ⟨by decide,
    (floatData_shortData_roundtrip boundaryFile boundaryBuffer (by decide)
      (fun _ => ⟨0⟩) (fun _ => 0)).1,
    by decide!, by decide!, by decide!⟩

/-! ## Lemmas on cached views and on the invariant of the buffer -/

/-- What a call of `floatData()` leaves as it is, and what the buffer holds
afterwards. -/
theorem floatData_fst_floats_isSome_or (junk : Nat → F32) (w : Waveform) :
    (w.floatData junk).1.sampleCount = w.sampleCount ∧
    (w.floatData junk).1.sampleRate = w.sampleRate ∧
    (w.floatData junk).1.shorts_ = w.shorts_ ∧
    (w.floatData junk).1.floats_ = (w.floatData junk).2 ∧
    (w.sampleCount = 0 ∨ (w.floatData junk).2.isSome = true) := by
  unfold Waveform.floatData
  by_cases h : w.sampleCount = 0 ∨ w.floats_.isSome = true
  · rw [if_pos h]
    refine ⟨rfl, rfl, rfl, rfl, ?_⟩
    rcases h with h | h
    · exact Or.inl h
    · exact Or.inr h
  · rw [if_neg h]
    exact ⟨rfl, rfl, rfl, rfl, Or.inr rfl⟩

/-- What a call of `shortData()` leaves as it is, and what the buffer holds
afterwards. -/
theorem shortData_fst (junk : Nat → Int) (w : Waveform) :
    (w.shortData junk).1.sampleCount = w.sampleCount ∧
    (w.shortData junk).1.sampleRate = w.sampleRate ∧
    (w.shortData junk).1.floats_ = w.floats_ ∧
    (w.shortData junk).1.shorts_ = (w.shortData junk).2 ∧
    (w.sampleCount = 0 ∨ (w.shortData junk).2.isSome = true) := by
  unfold Waveform.shortData
  by_cases h : w.sampleCount = 0 ∨ w.shorts_.isSome = true
  · rw [if_pos h]
    refine ⟨rfl, rfl, rfl, rfl, ?_⟩
    rcases h with h | h
    · exact Or.inl h
    · exact Or.inr h
  · rw [if_neg h]
    exact ⟨rfl, rfl, rfl, rfl, Or.inr rfl⟩

/-- A call of `floatData()` on a buffer that has no samples or holds its float
array changes nothing and returns that array. -/
theorem floatData_cached (junk : Nat → F32) (w : Waveform)
    (h : w.sampleCount = 0 ∨ w.floats_.isSome = true) : w.floatData junk = (w, w.floats_) := by
  unfold Waveform.floatData; rw [if_pos h]

theorem shortData_cached (junk : Nat → Int) (w : Waveform)
    (h : w.sampleCount = 0 ∨ w.shorts_.isSome = true) : w.shortData junk = (w, w.shorts_) := by
  unfold Waveform.shortData; rw [if_pos h]

theorem consistent_init (n rate : Nat) : (Waveform.init n rate).Consistent :=
  ⟨fun _ => ⟨rfl, rfl⟩, fun _ h => Option.noConfusion h, fun _ h => Option.noConfusion h⟩

theorem consistent_movedFrom (w : Waveform) : w.movedFrom.Consistent :=
  ⟨fun _ => ⟨rfl, rfl⟩, fun _ h => Option.noConfusion h, fun _ h => Option.noConfusion h⟩

theorem consistent_floatData (junk : Nat → F32) (w : Waveform) (h : w.Consistent) :
    (w.floatData junk).1.Consistent := by
  unfold Waveform.floatData
  by_cases c : w.sampleCount = 0 ∨ w.floats_.isSome = true
  · rw [if_pos c]; exact h
  · rw [if_neg c]
    rw [not_or] at c
    obtain ⟨h1, h2, h3⟩ := h
    refine ⟨fun h0 => absurd h0 c.1, ?_, h3⟩
    intro floats hf
    have hf' := Option.some.inj hf
    rw [← hf']
    cases hs : w.shorts_ with
    | none => simp
    | some shorts => simp only []; rw [fillFloats_eq shorts _ _ (by simp)]; simp

theorem consistent_shortData (junk : Nat → Int) (w : Waveform) (h : w.Consistent) :
    (w.shortData junk).1.Consistent := by
  unfold Waveform.shortData
  by_cases c : w.sampleCount = 0 ∨ w.shorts_.isSome = true
  · rw [if_pos c]; exact h
  · rw [if_neg c]
    rw [not_or] at c
    obtain ⟨h1, h2, h3⟩ := h
    refine ⟨fun h0 => absurd h0 c.1, h2, ?_⟩
    intro shorts hf
    have hf' := Option.some.inj hf
    rw [← hf']
    cases hs : w.floats_ with
    | none => simp
    | some floats => simp only []; rw [fillShorts_eq floats _ _ (by simp)]; simp

theorem consistent_apply (store : List Waveform) (op : BufferOp)
    (h : ∀ w ∈ store, w.Consistent) : ∀ w ∈ op.apply store, w.Consistent := by
  intro w hw
  cases op with
  | construct n rate =>
    simp only [BufferOp.apply, List.mem_append, List.mem_singleton] at hw
    rcases hw with hw | hw
    · exact h w hw
    · rw [hw]; exact consistent_init n rate
  | floatData i junk =>
    simp only [BufferOp.apply] at hw
    cases hi : store[i]? with
    | none => rw [hi] at hw; exact h w hw
    | some x =>
      rw [hi] at hw
      rcases List.mem_or_eq_of_mem_set hw with hw | hw
      · exact h w hw
      · rw [hw]; exact consistent_floatData junk x (h x (List.getElem?_mem hi))
  | shortData i junk =>
    simp only [BufferOp.apply] at hw
    cases hi : store[i]? with
    | none => rw [hi] at hw; exact h w hw
    | some x =>
      rw [hi] at hw
      rcases List.mem_or_eq_of_mem_set hw with hw | hw
      · exact h w hw
      · rw [hw]; exact consistent_shortData junk x (h x (List.getElem?_mem hi))
  | moveConstruct src =>
    simp only [BufferOp.apply] at hw
    cases hi : store[src]? with
    | none => rw [hi] at hw; exact h w hw
    | some x =>
      rw [hi] at hw
      simp only [List.mem_append, List.mem_singleton] at hw
      rcases hw with hw | hw
      · rcases List.mem_or_eq_of_mem_set hw with hw | hw
        · exact h w hw
        · rw [hw]; exact consistent_movedFrom x
      · rw [hw]; exact h x (List.getElem?_mem hi)
  | moveAssign dst src hne =>
    simp only [BufferOp.apply] at hw
    cases hd : store[dst]? with
    | none => rw [hd] at hw; exact h w hw
    | some d =>
      cases hi : store[src]? with
      | none => rw [hd, hi] at hw; exact h w hw
      | some x =>
        rw [hd, hi] at hw
        rcases List.mem_or_eq_of_mem_set hw with hw | hw
        · rcases List.mem_or_eq_of_mem_set hw with hw | hw
          · exact h w hw
          · rw [hw]; exact h x (List.getElem?_mem hi)
        · rw [hw]; exact consistent_movedFrom x

theorem consistent_foldl (ops : List BufferOp) (store : List Waveform)
    (h : ∀ w ∈ store, w.Consistent) : ∀ w ∈ ops.foldl BufferOp.apply store, w.Consistent := by
  induction ops generalizing store with
  | nil => exact h
  | cons op ops ih => exact ih _ (consistent_apply store op h)

theorem consistent_run (ops : List BufferOp) : ∀ w ∈ runBufferOps ops, w.Consistent :=
  consistent_foldl ops [] (fun _ hw => absurd hw (List.not_mem_nil _))

/-! ## The buffer and its moves: claims C11 to C14 and C17 -/

/-- C11: in every buffer state, once `floatData()` has been called a further
call returns the same array and leaves the buffer as it is, whatever the
allocator would hand out, also when `shortData()` was called in between; and
the same holds for `shortData()`.  A second call converts nothing. -/
theorem accessors_idempotent (w : Waveform) (jf jf2 : Nat → F32) (js js2 : Nat → Int) :
    (w.floatData jf).1.floatData jf2 = ((w.floatData jf).1, (w.floatData jf).2) ∧
    (w.shortData js).1.shortData js2 = ((w.shortData js).1, (w.shortData js).2) ∧
    ((w.floatData jf).1.shortData js).1.floatData jf2
      = (((w.floatData jf).1.shortData js).1, (w.floatData jf).2) ∧
    ((w.shortData js).1.floatData jf).1.shortData js2
      = (((w.shortData js).1.floatData jf).1, (w.shortData js).2) := by
  obtain ⟨f1, f2, f3, f4, f5⟩ := floatData_fst_floats_isSome_or jf w
  obtain ⟨s1, s2, s3, s4, s5⟩ := shortData_fst js w
  refine ⟨?_, ?_, ?_, ?_⟩
  · rw [floatData_cached jf2 _ (by rw [f1, f4]; exact f5), f4]
  · rw [shortData_cached js2 _ (by rw [s1, s4]; exact s5), s4]
  · obtain ⟨t1, t2, t3, t4, t5⟩ := shortData_fst js (w.floatData jf).1
    rw [floatData_cached jf2 _ (by rw [t1, t3, f1, f4]; exact f5), t3, f4]
  · obtain ⟨t1, t2, t3, t4, t5⟩ := floatData_fst_floats_isSome_or jf (w.shortData js).1
    rw [shortData_cached js2 _ (by rw [t1, t3, s1, s4]; exact s5), t3, s4]

/-- C12: after the move construction of a buffer from `src`, and after the move
assignment of `src` to another buffer `dst`, `src` has `sampleCount == 0` and
its `floatData()` and `shortData()` return null and leave it without any array,
while the receiving buffer has the `sampleCount`, the `sampleRate` and the two
arrays (or null pointers) `src` had. -/
theorem move_semantics (src dst : Waveform) (jf : Nat → F32) (js : Nat → Int) :
    (src.moveConstruct.2.sampleCount = 0 ∧
      src.moveConstruct.2.floatData jf = (src.moveConstruct.2, none) ∧
      src.moveConstruct.2.shortData js = (src.moveConstruct.2, none) ∧
      src.moveConstruct.2.floats_ = none ∧ src.moveConstruct.2.shorts_ = none ∧
      src.moveConstruct.1 = src) ∧
    ((dst.moveAssign src).2.sampleCount = 0 ∧
      (dst.moveAssign src).2.floatData jf = ((dst.moveAssign src).2, none) ∧
      (dst.moveAssign src).2.shortData js = ((dst.moveAssign src).2, none) ∧
      (dst.moveAssign src).2.floats_ = none ∧ (dst.moveAssign src).2.shorts_ = none ∧
      (dst.moveAssign src).1 = src) := by
  refine ⟨⟨rfl, ?_, ?_, rfl, rfl, rfl⟩, ⟨rfl, ?_, ?_, rfl, rfl, rfl⟩⟩
  · exact floatData_cached jf _ (Or.inl rfl)
  · exact shortData_cached js _ (Or.inl rfl)
  · exact floatData_cached jf _ (Or.inl rfl)
  · exact shortData_cached js _ (Or.inl rfl)

/-- C13: in every state a program reaches from the constructor by calls of
`floatData()`, `shortData()`, move constructions and move assignments between
different objects, a buffer whose `sampleCount` is 0 holds neither array, and
its `floatData()` and `shortData()` return null and leave it as it is: nothing
is allocated. -/
theorem no_samples_no_allocation (ops : List BufferOp) (w : Waveform)
    (hw : w ∈ runBufferOps ops) (h0 : w.sampleCount = 0) (jf : Nat → F32) (js : Nat → Int) :
    w.floats_ = none ∧ w.shorts_ = none ∧
    w.floatData jf = (w, none) ∧ w.shortData js = (w, none) := by
  obtain ⟨hf, hs⟩ := (consistent_run ops w hw).1 h0
  refine ⟨hf, hs, ?_, ?_⟩
  · rw [floatData_cached jf w (Or.inl h0), hf]
  · rw [shortData_cached js w (Or.inl h0), hs]

/-- Witness of `no_samples_no_allocation`: the object that was moved from in
`sampleOps`, whose two arrays had been allocated before the move. -/
theorem no_samples_no_allocation_witness :
    (⟨16000, 0, none, none⟩ : Waveform) ∈ runBufferOps sampleOps ∧
    (⟨16000, 0, none, none⟩ : Waveform).floatData (fun _ => ⟨7⟩)
      = (⟨16000, 0, none, none⟩, none) ∧
    (⟨16000, 0, none, none⟩ : Waveform).shortData (fun _ => 7)
      = (⟨16000, 0, none, none⟩, none) :=
  ⟨by decide!,
   (no_samples_no_allocation sampleOps ⟨16000, 0, none, none⟩ (by decide!) rfl
      (fun _ => ⟨7⟩) (fun _ => 7)).2.2⟩

/-- C14: in every state a program reaches from the constructor by calls of
`floatData()`, `shortData()`, move constructions and move assignments between
different objects, an array a buffer holds has exactly `sampleCount` elements. -/
theorem materialized_length (ops : List BufferOp) (w : Waveform) (hw : w ∈ runBufferOps ops) :
    (∀ floats, w.floats_ = some floats → floats.length = w.sampleCount) ∧
    (∀ shorts, w.shorts_ = some shorts → shorts.length = w.sampleCount) :=
  (consistent_run ops w hw).2

/-- Witness of `materialized_length`: the object that received both arrays of
three samples at the end of `sampleOps`. -/
theorem materialized_length_witness :
    sampleOpsLast ∈ runBufferOps sampleOps ∧ sampleOpsLast.sampleCount = 3 ∧
    (∀ floats, sampleOpsLast.floats_ = some floats → floats.length = 3) ∧
    (∀ shorts, sampleOpsLast.shorts_ = some shorts → shorts.length = 3) :=
  ⟨by decide!, rfl, materialized_length sampleOps sampleOpsLast (by decide!)⟩

/-- C17 (as amended): `floatData()`, `shortData()` and being the source of a
move leave `sampleRate` as it is; a move assignment gives its destination the
`sampleRate` of the source. -/
theorem sampleRate_changes (w other : Waveform) (jf : Nat → F32) (js : Nat → Int) :
    (w.floatData jf).1.sampleRate = w.sampleRate ∧
    (w.shortData js).1.sampleRate = w.sampleRate ∧
    w.moveConstruct.2.sampleRate = w.sampleRate ∧
    (other.moveAssign w).2.sampleRate = w.sampleRate ∧
    (w.moveAssign other).1.sampleRate = other.sampleRate := by
  refine ⟨?_, ?_, rfl, rfl, rfl⟩
  · unfold Waveform.floatData; split_ifs <;> rfl
  · unfold Waveform.shortData; split_ifs <;> rfl

/-- C17 (as stated) fails: the default-constructed buffer has `sampleRate` 9600,
and after the move assignment of a 16000 Hz buffer to it, as in
`wav = loadWAV(..)`, its `sampleRate` is 16000. -/
theorem sampleRate_changes_counterexample :
    Waveform.initDefault.sampleRate = 9600 ∧
    (Waveform.initDefault.moveAssign boundaryBuffer).1.sampleRate = 16000 ∧
    (Waveform.initDefault.moveAssign boundaryBuffer).1.sampleRate
      ≠ Waveform.initDefault.sampleRate := by
  decide

/-! ## The unchecked header fields: claim C16 -/

theorem agree_of_same (f1 f2 : List Byte) (h : SameButInfoFields f1 f2) (i : Nat)
    (hi : ¬ isInfoOffset i) : f1[i]? = f2[i]? := by
  by_cases hl : i < f1.length
  · exact h.2 i hl hi
  · rw [List.getElem?_eq_none (by omega), List.getElem?_eq_none (by rw [← h.1]; omega)]

theorem byteAt_of_same (f1 f2 : List Byte) (h : SameButInfoFields f1 f2) (i : Nat)
    (hi : ¬ isInfoOffset i) : byteAt f1 i = byteAt f2 i := by
  simp only [byteAt, List.getD_eq_getElem?_getD, agree_of_same f1 f2 h i hi]

theorem u16At_of_same (f1 f2 : List Byte) (h : SameButInfoFields f1 f2) (off : Nat)
    (ho : off + 2 ≤ 4 ∨ (8 ≤ off ∧ off + 2 ≤ 28) ∨ 34 ≤ off) : u16At f1 off = u16At f2 off := by
  simp only [u16At]
  rw [byteAt_of_same f1 f2 h off (by unfold isInfoOffset; omega),
    byteAt_of_same f1 f2 h (off + 1) (by unfold isInfoOffset; omega)]

theorem u32At_of_same (f1 f2 : List Byte) (h : SameButInfoFields f1 f2) (off : Nat)
    (ho : off + 4 ≤ 4 ∨ (8 ≤ off ∧ off + 4 ≤ 28) ∨ 34 ≤ off) : u32At f1 off = u32At f2 off := by
  simp only [u32At]
  rw [byteAt_of_same f1 f2 h off (by unfold isInfoOffset; omega),
    byteAt_of_same f1 f2 h (off + 1) (by unfold isInfoOffset; omega),
    byteAt_of_same f1 f2 h (off + 2) (by unfold isInfoOffset; omega),
    byteAt_of_same f1 f2 h (off + 3) (by unfold isInfoOffset; omega)]

theorem i16At_of_same (f1 f2 : List Byte) (h : SameButInfoFields f1 f2) (off : Nat)
    (ho : 34 ≤ off) : i16At f1 off = i16At f2 off := by
  simp only [i16At, u16At_of_same f1 f2 h off (Or.inr (Or.inr ho))]

theorem tagAt_of_same (f1 f2 : List Byte) (h : SameButInfoFields f1 f2) (off : Nat)
    (tag : List Byte)
    (ho : off + 4 ≤ 4 ∨ (8 ≤ off ∧ off + 4 ≤ 28) ∨ 34 ≤ off) :
    tagAt f1 off tag ↔ tagAt f2 off tag := by
  have e : (f1.drop off).take 4 = (f2.drop off).take 4 := by
    apply List.ext_getElem?
    intro j
    by_cases hj : j < 4
    · rw [List.getElem?_take_of_lt hj, List.getElem?_take_of_lt hj, List.getElem?_drop,
        List.getElem?_drop]
      exact agree_of_same f1 f2 h (off + j) (by unfold isInfoOffset; omega)
    · rw [List.getElem?_take_eq_none (by omega), List.getElem?_take_eq_none (by omega)]
  unfold tagAt
  rw [e]

/-- C16: two files that differ only in the total RIFF size (bytes 4..7), the byte
rate (bytes 28..31) and the block alignment (bytes 32..33) get the same outcome
from `loadWAV`: the same error, or equal buffers (sample count, sample rate and
samples). -/
theorem loadWAV_ignores_info_fields (f1 f2 : List Byte) (h : SameButInfoFields f1 f2) :
    loadWAV f1 = loadWAV f2 := by
  have hlen := h.1
  have t0 := tagAt_of_same f1 f2 h 0 tagRIFF (by omega)
  have t8 := tagAt_of_same f1 f2 h 8 tagWAVE (by omega)
  have t12 := tagAt_of_same f1 f2 h 12 tagFmt (by omega)
  have hfmt : fmtSizeOf f1 = fmtSizeOf f2 := u32At_of_same f1 f2 h 16 (by omega)
  have h20 := u16At_of_same f1 f2 h 20 (by omega)
  have h22 := u16At_of_same f1 f2 h 22 (by omega)
  have h34 := u16At_of_same f1 f2 h 34 (by omega)
  have hrate : declaredRate f1 = declaredRate f2 := u32At_of_same f1 f2 h 24 (by omega)
  rw [loadWAV_eq f1, loadWAV_eq f2, hlen, hfmt, h20, h22, h34, hrate]
  by_cases c1 : f2.length < 100
  · rw [if_pos c1, if_pos c1]
  rw [if_neg c1, if_neg c1]
  by_cases c2 : ¬ tagAt f2 0 tagRIFF ∨ ¬ tagAt f2 8 tagWAVE
  · rw [if_pos c2, if_pos (by rw [t0, t8]; exact c2)]
  rw [if_neg c2, if_neg (by rw [t0, t8]; exact c2)]
  by_cases c3 : ¬ tagAt f2 12 tagFmt ∨ fmtSizeOf f2 < 16
  · rw [if_pos c3, if_pos (by rw [t12]; exact c3)]
  rw [if_neg c3, if_neg (by rw [t12]; exact c3)]
  have h16 : 16 ≤ fmtSizeOf f2 := by
    rw [not_or, not_lt] at c3; exact c3.2
  by_cases c4 : u16At f2 20 ≠ 1
  · rw [if_pos c4, if_pos c4]
  rw [if_neg c4, if_neg c4]
  by_cases c5 : u16At f2 34 ≠ 16 ∨ u16At f2 22 ≠ 1
  · rw [if_pos c5, if_pos c5]
  rw [if_neg c5, if_neg c5]
  by_cases c6 : 76 < fmtSizeOf f2
  · rw [if_pos c6, if_pos c6]
  rw [if_neg c6, if_neg c6]
  have td := tagAt_of_same f1 f2 h (20 + fmtSizeOf f2) tagData (by omega)
  by_cases c7 : ¬ tagAt f2 (20 + fmtSizeOf f2) tagData
  · rw [if_pos c7, if_pos (by rw [td]; exact c7)]
  rw [if_neg c7, if_neg (by rw [td]; exact c7)]
  by_cases c8 : 72 < fmtSizeOf f2
  · rw [if_pos c8, if_pos c8]
  rw [if_neg c8, if_neg c8]
  have hds : dataSizeOf f1 = dataSizeOf f2 := by
    unfold dataSizeOf
    rw [dataChunkOffset_eq f1 (by omega), dataChunkOffset_eq f2 h16, hfmt]
    exact u32At_of_same f1 f2 h _ (by omega)
  rw [hds]
  by_cases c9 : f2.length - (28 + fmtSizeOf f2) < dataSizeOf f2
  · rw [if_pos c9, if_pos c9]
  rw [if_neg c9, if_neg c9]
  by_cases c10 : dataSizeOf f2 % 2 = 1
  · rw [if_pos c10, if_pos c10]
  rw [if_neg c10, if_neg c10]
  have hmap : (List.range (dataSizeOf f2 / 2)).map (fun i => i16At f1 (28 + fmtSizeOf f2 + 2 * i))
      = (List.range (dataSizeOf f2 / 2)).map (fun i => i16At f2 (28 + fmtSizeOf f2 + 2 * i)) := by
    apply List.map_congr_left
    intro i _
    exact i16At_of_same f1 f2 h _ (by omega)
  rw [hmap]

/-- Witness of `loadWAV_ignores_info_fields`: the 104-byte file with a RIFF size
of 7, a byte rate of 123456 and a block alignment of 9 decodes as `smallFile`. -/
theorem loadWAV_ignores_info_fields_witness :
    SameButInfoFields smallFile smallFileOtherInfo ∧ smallFile ≠ smallFileOtherInfo ∧
    loadWAV smallFile = loadWAV smallFileOtherInfo :=
  ⟨by decide, by decide, loadWAV_ignores_info_fields smallFile smallFileOtherInfo (by decide)⟩

/-! ## The bytes stored by the read of the samples: claim C18 -/

theorem storageCapacity_eq (h : HeaderInfo) : storageCapacity h = 2 * (h.dataSize / 2) := by
  unfold storageCapacity Waveform.shortData Waveform.init
  by_cases hn : h.dataSize / 2 = 0
  · simp [hn]
  · simp [hn]

theorem storedByteCount_eq (file : List Byte) (h : HeaderInfo) :
    storedByteCount file h = min h.dataSize (file.length - (28 + h.fmtSize)) := by
  unfold storedByteCount
  rw [length_streamRead]
  congr 2
  omega

/-- The sample phase ends in an access outside the storage exactly when the
read stores more bytes than the storage holds. -/
theorem readSamples_undefined_iff (file : List Byte) (h : HeaderInfo) :
    readSamples file h = .undefined ↔ storageCapacity h < storedByteCount file h := by
  rw [readSamples_eq, storageCapacity_eq, storedByteCount_eq]
  by_cases c1 : file.length - (28 + h.fmtSize) < h.dataSize
  · rw [if_pos c1]
    exact ⟨fun hu => Outcome.noConfusion hu, fun hc => by omega⟩
  · rw [if_neg c1]
    by_cases c2 : h.dataSize % 2 = 1
    · rw [if_pos c2]
      exact ⟨fun _ => by omega, fun _ => rfl⟩
    · rw [if_neg c2]
      exact ⟨fun hu => Outcome.noConfusion hu, fun hc => by omega⟩

/-- C18 fails on the code: for a file that passes the header validation,
declares an odd data size and has that many bytes after the data chunk header,
the read stores `dataSize` bytes while the storage holds `dataSize - 1` bytes,
one byte past its end; `loadWAV` ends in that access outside the storage. -/
theorem loadWAV_odd_data_overflows (file : List Byte) (h : HeaderInfo)
    (hh : readHeader file = .ok h) (hodd : h.dataSize % 2 = 1)
    (hlen : h.dataSize ≤ file.length - (28 + h.fmtSize)) :
    storedByteCount file h = h.dataSize ∧ storageCapacity h = h.dataSize - 1 ∧
    storageCapacity h < storedByteCount file h ∧ loadWAV file = .undefined := by
  have h1 : storedByteCount file h = h.dataSize := by
    rw [storedByteCount_eq]; omega
  have h2 : storageCapacity h = h.dataSize - 1 := by
    rw [storageCapacity_eq]; omega
  have h3 : storageCapacity h < storedByteCount file h := by omega
  refine ⟨h1, h2, h3, ?_⟩
  unfold loadWAV
  rw [hh]
  exact (readSamples_undefined_iff file h).2 h3

/-- Witness of `loadWAV_odd_data_overflows`: the file that declares 61 data
bytes has 61 bytes stored into 60, and the file that declares 1 data byte has 1
byte stored through the null pointer `shortData()` returns for no samples. -/
theorem loadWAV_odd_data_overflows_witness :
    (readHeader oddFile = .ok ⟨16, 61, 16000⟩ ∧
      storedByteCount oddFile ⟨16, 61, 16000⟩ = 61 ∧ storageCapacity ⟨16, 61, 16000⟩ = 60 ∧
      loadWAV oddFile = .undefined) ∧
    (readHeader oneByteFile = .ok ⟨16, 1, 16000⟩ ∧
      storedByteCount oneByteFile ⟨16, 1, 16000⟩ = 1 ∧ storageCapacity ⟨16, 1, 16000⟩ = 0 ∧
      loadWAV oneByteFile = .undefined) :=
  ⟨⟨by decide,
    (loadWAV_odd_data_overflows oddFile ⟨16, 61, 16000⟩ (by decide) (by decide) (by decide)).1,
    (loadWAV_odd_data_overflows oddFile ⟨16, 61, 16000⟩ (by decide) (by decide) (by decide)).2.1,
    (loadWAV_odd_data_overflows oddFile ⟨16, 61, 16000⟩ (by decide) (by decide) (by decide)).2.2.2⟩,
   ⟨by decide,
    (loadWAV_odd_data_overflows oneByteFile ⟨16, 1, 16000⟩ (by decide) (by decide)
      (by decide)).1,
    (loadWAV_odd_data_overflows oneByteFile ⟨16, 1, 16000⟩ (by decide) (by decide)
      (by decide)).2.1,
    (loadWAV_odd_data_overflows oneByteFile ⟨16, 1, 16000⟩ (by decide) (by decide)
      (by decide)).2.2.2⟩⟩

/-! ## binary64 rounding and the frame size -/

/-- Rounding a quotient never goes below an integer the quotient reaches. -/
theorem roundHalfEven_ge (n d m : Nat) (hd : 0 < d) (h : m * d ≤ n) : m ≤ roundHalfEven n d := by
  have hq : m ≤ n / d := (Nat.le_div_iff_mul_le hd).2 h
  unfold roundHalfEven
  split_ifs <;> omega

/-- The spacing of binary64 values below `2 ^ (k + 53)` units is at most
`2 ^ k` units. -/
theorem quantumExp64_le (q k : Nat) (h : q < 2 ^ (k + 53)) : F64.quantumExp q ≤ k := by
  have := ilog2_lt_of_lt q (k + 52) h
  unfold F64.quantumExp; omega

/-- Rounding to binary64 does not step over a multiple of a spacing that is at
least the spacing at the rounded magnitude. -/
theorem roundNat64_between (n d lo hi e0 : Nat) (hd : 0 < d) (he : n / d < 2 ^ (e0 + 53))
    (hlo : lo * 2 ^ e0 * d ≤ n) (hhi : n ≤ hi * 2 ^ e0 * d) :
    lo * 2 ^ e0 ≤ F64.roundNat n d ∧ F64.roundNat n d ≤ hi * 2 ^ e0 := by
  have hq := quantumExp64_le (n / d) e0 he
  obtain ⟨j, hj⟩ : ∃ j, e0 = F64.quantumExp (n / d) + j := ⟨_, (Nat.add_sub_cancel' hq).symm⟩
  have e : ∀ x, x * 2 ^ e0 = x * 2 ^ j * 2 ^ F64.quantumExp (n / d) := by
    intro x
    conv_lhs => rw [hj]
    rw [pow_add]; ring
  have hD : 0 < d * 2 ^ F64.quantumExp (n / d) := Nat.mul_pos hd (Nat.pow_pos (by decide))
  have c : ∀ x, x * 2 ^ j * (d * 2 ^ F64.quantumExp (n / d))
      = x * 2 ^ j * 2 ^ F64.quantumExp (n / d) * d := by intro x; ring
  have h1 := roundHalfEven_ge n (d * 2 ^ F64.quantumExp (n / d)) (lo * 2 ^ j) hD
    (by rw [c, ← e]; exact hlo)
  have h2 := roundHalfEven_le n (d * 2 ^ F64.quantumExp (n / d)) (hi * 2 ^ j) hD
    (by rw [c, ← e]; exact hhi)
  unfold F64.roundNat
  rw [e lo, e hi]
  exact ⟨Nat.mul_le_mul_right _ h1, Nat.mul_le_mul_right _ h2⟩

/-- The literal `1e-2` is 5764607523034235 * 2^-59. -/
theorem c001_eq : F64.c001 = 5764607523034235 * 2 ^ 1015 := by decide!

set_option exponentiation.threshold 4096 in
/-- The conversion of a 32-bit unsigned value to `double` is exact. -/
theorem ofNat64_eq (r : Nat) (hr : r < 2 ^ 32) : F64.ofNat r = r * 2 ^ 1074 := by
  have h := roundNat64_between (r * 2 ^ 1074) 1 (r * 2 ^ 21) (r * 2 ^ 21) 1053 (by decide)
    (by rw [Nat.div_one]; norm_num at hr ⊢; omega)
    (by norm_num; omega) (by norm_num; omega)
  have e : r * 2 ^ 21 * 2 ^ 1053 = r * 2 ^ 1074 := by
    rw [Nat.mul_assoc, (pow_add 2 21 1053).symm]
  rw [e] at h
  unfold F64.ofNat F64.one
  omega

set_option exponentiation.threshold 4096 in
/-- The frame size is the sample rate divided by 100, fraction dropped, for
every 32-bit sample rate. -/
theorem bufferSizeOf_eq (r : Nat) (hr : r < 2 ^ 32) : bufferSizeOf r = r / 100 := by
  have hU : 0 < 2 ^ 1074 := Nat.pow_pos (by decide)
  have hq : r * 2 ^ 1074 * (5764607523034235 * 2 ^ 1015) / 2 ^ 1074
      = r * (5764607523034235 * 2 ^ 1015) := by
    rw [Nat.mul_right_comm, Nat.mul_div_cancel _ hU]
  have h := roundNat64_between (r * 2 ^ 1074 * (5764607523034235 * 2 ^ 1015)) (2 ^ 1074)
    (r / 100 * 2 ^ 27) ((r / 100 + 1) * 2 ^ 27 - 2) 1047 hU
    (by rw [hq]; norm_num at hr ⊢; omega)
    (by norm_num at hr ⊢; omega) (by norm_num at hr ⊢; omega)
  unfold bufferSizeOf F64.mul F64.trunc
  rw [ofNat64_eq r hr, c001_eq]
  unfold F64.one
  generalize F64.roundNat (r * 2 ^ 1074 * (5764607523034235 * 2 ^ 1015)) (2 ^ 1074) = D at h
  norm_num at h hr ⊢
  omega

/-! ## The frame loop: claims C15, C19 and C20 -/

/-- On a buffer with samples that satisfies the invariant, `floatData()` returns
an array of `sampleCount` elements. -/
theorem floatData_view (junk : Nat → F32) (w : Waveform) (hc : w.Consistent)
    (hpos : 0 < w.sampleCount) :
    ∃ view, (w.floatData junk).2 = some view ∧ view.length = w.sampleCount := by
  obtain ⟨f1, -, -, f4, f5⟩ := floatData_fst_floats_isSome_or junk w
  rcases f5 with f5 | f5
  · omega
  · obtain ⟨view, hv⟩ := Option.isSome_iff_exists.1 f5
    refine ⟨view, hv, ?_⟩
    have := (consistent_floatData junk w hc).2.1 view (by rw [f4, hv])
    rw [this, f1]

/-- The buffer `loadWAV` returns satisfies the invariant, has fewer than 2^31
samples and a 32-bit sample rate. -/
theorem loadWAV_ok_consistent (file : List Byte) (w : Waveform) (h : loadWAV file = .ok w) :
    w.Consistent ∧ w.sampleCount < 2 ^ 31 ∧ w.sampleRate < 2 ^ 32 := by
  obtain ⟨-, -, -, -, -, -, -, -, -, -, -, -, hw⟩ := loadWAV_ok_cases file w h
  have hd : dataSizeOf file < 2 ^ 32 := u32At_lt _ _
  have hr : declaredRate file < 2 ^ 32 := u32At_lt _ _
  subst hw
  refine ⟨⟨?_, ?_, ?_⟩, ?_, hr⟩
  · intro h0
    simp only at h0
    exact ⟨rfl, by simp only [h0, if_true]⟩
  · intro floats hf
    exact Option.noConfusion hf
  · intro shorts hs
    simp only at hs ⊢
    by_cases c : dataSizeOf file / 2 = 0
    · rw [if_pos c] at hs; exact Option.noConfusion hs
    · rw [if_neg c] at hs
      rw [← Option.some.inj hs]
      simp
  · simp only
    norm_num at hd ⊢
    omega

/-- The object `wav` of `main` after `wav = loadWAV(..)` is the buffer that was
loaded. -/
theorem moveAssign_initDefault (w : Waveform) : (Waveform.initDefault.moveAssign w).1 = w := rfl

/-- Every call the loop makes, with any engine and for any number of
iterations, is at an offset whose window ends before the last sample, on an
array of `sampleCount` elements. -/
theorem frameLoop_safe (engine : Nat → Bool) (junk : Nat → F32) (F n : Nat)
    (hF : F < 2 ^ 31) (hn : n < 2 ^ 31) :
    ∀ (fuel call offs : Nat) (wav : Waveform), wav.Consistent → wav.sampleCount = n →
      offs ≤ n → ∀ c ∈ (frameLoop engine junk F fuel call offs wav).1,
        c.offs + F < n ∧ ∃ view, c.view = some view ∧ view.length = n := by
  intro fuel
  induction fuel with
  | zero =>
    intro call offs wav _ _ _ c hc
    simp [frameLoop] at hc
  | succ fuel ih =>
    intro call offs wav hcons hcount hoffs c hc
    have hmod : (offs + F) % 4294967296 = offs + F := Nat.mod_eq_of_lt (by norm_num at hF hn; omega)
    rw [frameLoop, hmod, hcount] at hc
    by_cases c1 : offs + F < n
    · rw [if_pos c1] at hc
      have hview := floatData_view junk wav hcons (by omega)
      rw [hcount] at hview
      obtain ⟨f1, -, -, -, -⟩ := floatData_fst_floats_isSome_or junk wav
      by_cases c2 : engine call = true
      · rw [if_pos c2] at hc
        simp only [List.mem_cons] at hc
        rcases hc with hc | hc
        · rw [hc]; exact ⟨c1, hview⟩
        · exact ih (call + 1) (offs + F) (wav.floatData junk).1 (consistent_floatData junk wav hcons)
            (by rw [f1, hcount]) (by omega) c hc
      · rw [if_neg c2] at hc
        simp only [List.mem_singleton] at hc
        rw [hc]; exact ⟨c1, hview⟩
    · rw [if_neg c1] at hc
      simp at hc

/-- With a frame size above 0 the loop ends, whatever the engine does: after
`(n - 1 - offs) / F + 1` iterations at most it is not running any more. -/
theorem frameLoop_terminates (engine : Nat → Bool) (junk : Nat → F32) (F n : Nat)
    (hF0 : 0 < F) (hF : F < 2 ^ 31) (hn : n < 2 ^ 31) :
    ∀ (fuel call offs : Nat) (wav : Waveform), wav.sampleCount = n → offs ≤ n →
      (n - 1 - offs) / F < fuel →
      (frameLoop engine junk F fuel call offs wav).2 ≠ .running := by
  intro fuel
  induction fuel with
  | zero => intro call offs wav _ _ hfuel; exact absurd hfuel (Nat.not_lt_zero _)
  | succ fuel ih =>
    intro call offs wav hcount hoffs hfuel
    have hmod : (offs + F) % 4294967296 = offs + F := Nat.mod_eq_of_lt (by norm_num at hF hn; omega)
    rw [frameLoop, hmod, hcount]
    by_cases c1 : offs + F < n
    · rw [if_pos c1]
      obtain ⟨f1, -, -, -, -⟩ := floatData_fst_floats_isSome_or junk wav
      by_cases c2 : engine call = true
      · rw [if_pos c2]
        have e : n - 1 - offs = n - 1 - (offs + F) + F := by omega
        rw [e, Nat.add_div_right _ hF0] at hfuel
        exact ih (call + 1) (offs + F) (wav.floatData junk).1 (by rw [f1, hcount]) (by omega)
          (by omega)
      · rw [if_neg c2]; exact fun h => LoopStatus.noConfusion h
    · rw [if_neg c1]; exact fun h => LoopStatus.noConfusion h

/-- With an engine that processes every frame and a frame size `F` above 0, the
loop finishes after the frames at `offs`, `offs + F`, .., as many as
`(n - 1 - offs) / F`. -/
theorem frameLoop_engineOk (junk : Nat → F32) (F n : Nat)
    (hF0 : 0 < F) (hF : F < 2 ^ 31) (hn : n < 2 ^ 31) :
    ∀ (fuel call offs : Nat) (wav : Waveform), wav.sampleCount = n → offs ≤ n →
      (n - 1 - offs) / F < fuel →
      (frameLoop engineOk junk F fuel call offs wav).2 = .finished ∧
      (frameLoop engineOk junk F fuel call offs wav).1.map FrameCall.offs
        = (List.range ((n - 1 - offs) / F)).map (fun j => offs + j * F) := by
  intro fuel
  induction fuel with
  | zero => intro call offs wav _ _ hfuel; exact absurd hfuel (Nat.not_lt_zero _)
  | succ fuel ih =>
    intro call offs wav hcount hoffs hfuel
    have hmod : (offs + F) % 4294967296 = offs + F := Nat.mod_eq_of_lt (by norm_num at hF hn; omega)
    rw [frameLoop, hmod, hcount]
    by_cases c1 : offs + F < n
    · rw [if_pos c1, if_pos (show engineOk call = true from rfl)]
      obtain ⟨f1, -, -, -, -⟩ := floatData_fst_floats_isSome_or junk wav
      have e : n - 1 - offs = n - 1 - (offs + F) + F := by omega
      rw [e, Nat.add_div_right _ hF0] at hfuel ⊢
      obtain ⟨h1, h2⟩ := ih (call + 1) (offs + F) (wav.floatData junk).1 (by rw [f1, hcount])
        (by omega) (by omega)
      refine ⟨h1, ?_⟩
      simp only [List.map_cons]
      rw [h2, List.range_succ_eq_map, List.map_cons, List.map_map]
      congr 1
      · simp
      · apply List.map_congr_left
        intro j _
        simp only [Function.comp, Nat.succ_eq_add_one]
        rw [Nat.add_mul]
        omega
    · rw [if_neg c1]
      have : (n - 1 - offs) / F = 0 := Nat.div_eq_of_lt (by omega)
      rw [this]
      exact ⟨rfl, rfl⟩

/-- With a frame size of 0, samples in the buffer and an engine that processes
every frame, each iteration is at offset 0 and the loop is still running after
any number of iterations. -/
theorem frameLoop_zero_frame (junk : Nat → F32) :
    ∀ (fuel call : Nat) (wav : Waveform), 0 < wav.sampleCount →
      (frameLoop engineOk junk 0 fuel call 0 wav).2 = .running ∧
      (frameLoop engineOk junk 0 fuel call 0 wav).1.map FrameCall.offs
        = List.replicate fuel 0 := by
  intro fuel
  induction fuel with
  | zero => intro call wav _; exact ⟨rfl, rfl⟩
  | succ fuel ih =>
    intro call wav hpos
    obtain ⟨f1, -, -, -, -⟩ := floatData_fst_floats_isSome_or junk wav
    obtain ⟨h1, h2⟩ := ih (call + 1) (wav.floatData junk).1 (by rw [f1]; exact hpos)
    rw [frameLoop]
    rw [if_pos (show (0 + 0) % 4294967296 < wav.sampleCount from hpos),
      if_pos (show engineOk call = true from rfl)]
    refine ⟨h1, ?_⟩
    simp only [List.map_cons, List.replicate_succ]
    rw [h2]

/-- C15 fails on the code: for the one-second file of 16000 samples at
16000 Hz the frame size is 160 and the buffer holds exactly 100 frames, but the
loop, whose test is `offs + bufferSize < sampleCount`, finishes after the 99
frames at offsets 0, 160, .., 15680: the last full frame, samples 15840 to
15999, is not handed to the engine. -/
theorem processFrames_drops_last_full_frame (junk : Nat → F32) (extra : Nat) :
    loadWAV rampFile = .ok rampBuffer ∧
    bufferSizeOf rampBuffer.sampleRate = 160 ∧ rampBuffer.sampleCount = 100 * 160 ∧
    (processFrames engineOk junk rampBuffer (100 + extra)).2 = .finished ∧
    (processFrames engineOk junk rampBuffer (100 + extra)).1.map FrameCall.offs
      = (List.range 99).map (fun j => j * 160) ∧
    (processFrames engineOk junk rampBuffer (100 + extra)).1.length = 99 := by
  have hbuf : bufferSizeOf rampBuffer.sampleRate = 160 := by decide!
  have hdiv : (16000 - 1 - 0) / 160 = 99 := by norm_num
  obtain ⟨h1, h2⟩ := frameLoop_engineOk junk 160 16000 (by norm_num) (by norm_num) (by norm_num)
    (100 + extra) 0 0 rampBuffer rfl (by omega) (by rw [hdiv]; omega)
  rw [hdiv] at h2
  simp only [Nat.zero_add] at h2
  have hp : processFrames engineOk junk rampBuffer (100 + extra)
      = frameLoop engineOk junk 160 (100 + extra) 0 0 rampBuffer := by
    unfold processFrames
    rw [moveAssign_initDefault, hbuf]
  rw [hp]
  refine ⟨loadWAV_rampFile, hbuf, rfl, h1, h2, ?_⟩
  have := congrArg List.length h2
  simpa using this

/-- C19: for a buffer `loadWAV` returned, with any engine and after any number
of iterations, every call of the loop is at an offset `offs` with
`offs + F <= sampleCount`, on the array of `sampleCount` floats that
`floatData()` returned, where `F` is the sample rate divided by 100, fraction
dropped, and `sampleCount` is below 2^31.  The 32-bit sums are exact: `offs + F`
of the test and of the increment is below 2^32, and so is the sum
`(offs + F) + F` of the test that follows. -/
theorem frames_inside_view (file : List Byte) (w : Waveform) (h : loadWAV file = .ok w)
    (engine : Nat → Bool) (junk : Nat → F32) (fuel : Nat) :
    w.sampleCount < 2 ^ 31 ∧ bufferSizeOf w.sampleRate = w.sampleRate / 100 ∧
    bufferSizeOf w.sampleRate < 2 ^ 32 ∧
    ∀ c ∈ (processFrames engine junk w fuel).1,
      c.offs + bufferSizeOf w.sampleRate ≤ w.sampleCount ∧
      c.offs + bufferSizeOf w.sampleRate < 2 ^ 32 ∧
      c.offs + bufferSizeOf w.sampleRate + bufferSizeOf w.sampleRate < 2 ^ 32 ∧
      ∃ view, c.view = some view ∧ view.length = w.sampleCount ∧
        c.offs + bufferSizeOf w.sampleRate ≤ view.length := by
  obtain ⟨hcons, hcount, hrate⟩ := loadWAV_ok_consistent file w h
  have hF := bufferSizeOf_eq w.sampleRate hrate
  have hF2 : w.sampleRate / 100 < 2 ^ 26 := by norm_num at hrate ⊢; omega
  refine ⟨hcount, hF, by rw [hF]; norm_num at hF2 ⊢; omega, ?_⟩
  intro c hc
  unfold processFrames at hc
  rw [moveAssign_initDefault] at hc
  obtain ⟨h1, view, h2, h3⟩ := frameLoop_safe engine junk (bufferSizeOf w.sampleRate)
    w.sampleCount (by rw [hF]; norm_num at hF2 ⊢; omega) hcount fuel 0 0 w hcons rfl
    (Nat.zero_le _) c hc
  rw [hF] at h1 ⊢
  norm_num at hF2 hcount ⊢
  refine ⟨by omega, by omega, by omega, view, h2, h3, by omega⟩

/-- Witness of `frames_inside_view`: the thirty samples at 1000 Hz of `kiloFile`
with frames of ten samples; the engine is called at the offsets 0 and 10. -/
theorem frames_inside_view_witness :
    loadWAV kiloFile = .ok kiloBuffer ∧
    (processFrames engineOk (fun _ => ⟨0⟩) kiloBuffer 5).1.map FrameCall.offs = [0, 10] ∧
    bufferSizeOf kiloBuffer.sampleRate = kiloBuffer.sampleRate / 100 ∧
    ∀ c ∈ (processFrames engineOk (fun _ => ⟨0⟩) kiloBuffer 5).1,
      c.offs + bufferSizeOf kiloBuffer.sampleRate ≤ kiloBuffer.sampleCount ∧
      c.offs + bufferSizeOf kiloBuffer.sampleRate < 2 ^ 32 ∧
      c.offs + bufferSizeOf kiloBuffer.sampleRate + bufferSizeOf kiloBuffer.sampleRate < 2 ^ 32 ∧
      ∃ view, c.view = some view ∧ view.length = kiloBuffer.sampleCount ∧
        c.offs + bufferSizeOf kiloBuffer.sampleRate ≤ view.length :=
  ⟨by decide, by decide!,
   (frames_inside_view kiloFile kiloBuffer (by decide) engineOk (fun _ => ⟨0⟩) 5).2.1,
   (frames_inside_view kiloFile kiloBuffer (by decide) engineOk (fun _ => ⟨0⟩) 5).2.2.2⟩

/-- C20 fails on the code: for the file of thirty samples that declares 50 Hz
the frame size is 0, and with an engine that processes every frame the loop
calls it at offset 0 in every iteration and is still running after any number
of iterations. -/
theorem processFrames_zero_frame_never_ends (junk : Nat → F32) (fuel : Nat) :
    loadWAV slowFile = .ok slowBuffer ∧ bufferSizeOf slowBuffer.sampleRate = 0 ∧
    (processFrames engineOk junk slowBuffer fuel).2 = .running ∧
    (processFrames engineOk junk slowBuffer fuel).1.map FrameCall.offs
      = List.replicate fuel 0 := by
  have hbuf : bufferSizeOf slowBuffer.sampleRate = 0 := by decide!
  have hp : processFrames engineOk junk slowBuffer fuel
      = frameLoop engineOk junk 0 fuel 0 0 slowBuffer := by
    unfold processFrames
    rw [moveAssign_initDefault, hbuf]
  rw [hp]
  obtain ⟨h1, h2⟩ := frameLoop_zero_frame junk fuel 0 slowBuffer (by decide)
  exact ⟨by decide, hbuf, h1, h2⟩

end LipSync
